import Mathlib

/-!
Shallow embedding of the cache-aside blog service
(`src/app/routes/index.ts`, the `blog.service.ts` layer: cache key builders,
safe Redis helpers, cache invalidation, and the blog service functions),
together with proofs about its caching, counter, and invalidation behaviour.

The Redis cache is modelled as an association list of
(key, value, optional expiry) triples together with the current time;
the relational store is a list of blog rows.  Every service function is a
state transformer `St → Except Err α × St`: a thrown `AppError` leaves all
side effects performed so far in place, exactly as in the JavaScript code.
Two ghost fields (`dbReads`, `viewFlushes`) record the durable-store reads
and the batched view-count flushes the code issues; they are write-only
instrumentation and never influence control flow.
-/

/-! ## JavaScript string sorting (`Array.prototype.sort` with default comparator) -/

/-- Code-unit lexicographic comparison of char lists, as used by the default
JavaScript `Array.prototype.sort` comparator on strings. -/
def charListLE : List Char → List Char → Bool
  | [], _ => true
  | _ :: _, [] => false
  | a :: as, b :: bs =>
    if a.toNat < b.toNat then true
    else if b.toNat < a.toNat then false
    else charListLE as bs

/-- Lexicographic `≤` on strings (JavaScript default string comparison). -/
def jsStrLE (a b : String) : Bool := charListLE a.data b.data

/-- Insert a string into a sorted list of strings. -/
def insertSorted (a : String) : List String → List String
  | [] => [a]
  | b :: l => if jsStrLE a b then a :: b :: l else b :: insertSorted a l

/-- The contents of `tags.sort()`: the input list rearranged into
lexicographically sorted order (JavaScript sorts the array in place;
for the default string comparator the resulting contents are the sorted
permutation of the input, which is what this function computes). -/
def jsSort : List String → List String
  | [] => []
  | a :: l => insertSorted a (jsSort l)

/-- Models `Array.prototype.join(',')`. -/
def joinComma : List String → String
  | [] => ""
  | [a] => a
  | a :: b :: rest => a ++ "," ++ joinComma (b :: rest)

/-- Does `k` start with `p`?  Models a Redis `KEYS p*` pattern test. -/
def strStartsWith (p k : String) : Bool := p.data.isPrefixOf k.data

/-! ## Data model -/

/-- A row of the `blogs` table (Durable Store).  `views` and `likes` are the
persisted counters; timestamps are not modelled. -/
structure Blog where
  id : String
  slug : String
  title : String
  description : String
  tags : List String
  published : Bool
  isDeleted : Bool
  userId : String
  views : Int
  likes : Int
deriving Repr, DecidableEq

/-- A value stored in the cache.  Redis stores strings; here the serialized
forms are kept structured: `vInt` is a counter (decimal integer string),
`vStr` a plain string (like-marker `'1'`), `vBlog` a `JSON.stringify`d post
snapshot and `vBlogs` a serialized list of posts. -/
inductive CVal where
  | vInt (n : Int)
  | vStr (s : String)
  | vBlog (b : Blog)
  | vBlogs (bs : List Blog)
deriving Repr, DecidableEq

/-- Error kinds thrown by the service (`AppError` statuses and the
exceptions of the cache and store clients). -/
inductive Err where
  | notFound
  | conflict
  | alreadyLiked
  | notLiked
  | unauthenticated
  | cacheErr
  | dbErr
  | parseErr
deriving Repr, DecidableEq

deriving instance DecidableEq for Except

/-- One cache entry: key, value, and optional absolute expiry instant
(`none` for a persistent key, as created by `INCR` on a missing key). -/
abbrev CacheEntry := String × CVal × Option Nat

abbrev Cache := List CacheEntry

/-- Is an entry with the given expiry still alive at instant `now`? -/
def entryLive (now : Nat) (exp : Option Nat) : Bool :=
  match exp with
  | none => true
  | some t => now < t

/-- Look up the live entry stored under `k` (value and expiry).
An expired entry behaves as absent. -/
def cacheFindE (now : Nat) (k : String) : Cache → Option (CVal × Option Nat)
  | [] => none
  | (k', v, e) :: rest =>
    if k' = k then (if entryLive now e then some (v, e) else none)
    else cacheFindE now k rest

/-- Remove every entry stored under `k`. -/
def cacheErase (k : String) : Cache → Cache
  | [] => []
  | e :: rest => if e.1 = k then cacheErase k rest else e :: cacheErase k rest

/-- Remove every entry whose key occurs in `ks` (Redis `DEL k1 k2 …`). -/
def cacheEraseAll (ks : List String) : Cache → Cache
  | [] => []
  | e :: rest => if e.1 ∈ ks then cacheEraseAll ks rest else e :: cacheEraseAll ks rest

/-- Store `v` under `k` with expiry `e`, replacing any previous entry. -/
def cacheInsert (k : String) (v : CVal) (e : Option Nat) (c : Cache) : Cache :=
  (k, v, e) :: cacheErase k c

/-- The live keys matching pattern `p*` (Redis `KEYS`). -/
def cacheKeysMatching (now : Nat) (p : String) : Cache → List String
  | [] => []
  | e :: rest =>
    if entryLive now e.2.2 && strStartsWith p e.1 then
      e.1 :: cacheKeysMatching now p rest
    else cacheKeysMatching now p rest

/-- Global state: durable store, cache, clock, cache availability, and the
ghost instrumentation counters. -/
structure St where
  db : List Blog
  cache : Cache
  now : Nat
  cacheUp : Bool
  dbReads : Nat
  viewFlushes : List (String × Int)
deriving Repr, DecidableEq

/-- Let `d` time units pass (no cache entry is touched; expiry is checked
lazily on access, as in Redis). -/
def tick (d : Nat) (s : St) : St := { s with now := s.now + d }

/-! ## Redis client operations -/

/-- Models `redis.get(key)`: raises when the cache is unreachable. -/
def redisGetE (k : String) (s : St) : Except Err (Option CVal) × St :=
  if s.cacheUp then (Except.ok ((cacheFindE s.now k s.cache).map (fun p => p.1)), s)
  else (Except.error Err.cacheErr, s)

/-- Models `redis.setex(key, ttl, value)`. -/
def redisSetexE (k : String) (ttl : Nat) (v : CVal) (s : St) : Except Err Unit × St :=
  if s.cacheUp then
    (Except.ok (), { s with cache := cacheInsert k v (some (s.now + ttl)) s.cache })
  else (Except.error Err.cacheErr, s)

/-- Models `redis.del(...keys)`. -/
def redisDelE (ks : List String) (s : St) : Except Err Unit × St :=
  if s.cacheUp then (Except.ok (), { s with cache := cacheEraseAll ks s.cache })
  else (Except.error Err.cacheErr, s)

/-- Models `redis.incr(key)`: atomically increment an integer value, creating a
persistent key holding 1 when absent; the TTL of an existing key is kept. -/
def redisIncrE (k : String) (s : St) : Except Err Int × St :=
  if s.cacheUp then
    match cacheFindE s.now k s.cache with
    | none => (Except.ok 1, { s with cache := cacheInsert k (CVal.vInt 1) none s.cache })
    | some (CVal.vInt n, e) =>
      (Except.ok (n + 1), { s with cache := cacheInsert k (CVal.vInt (n + 1)) e s.cache })
    | some _ => (Except.error Err.cacheErr, s)
  else (Except.error Err.cacheErr, s)

/-- Models `redis.decr(key)`. -/
def redisDecrE (k : String) (s : St) : Except Err Int × St :=
  if s.cacheUp then
    match cacheFindE s.now k s.cache with
    | none => (Except.ok (-1), { s with cache := cacheInsert k (CVal.vInt (-1)) none s.cache })
    | some (CVal.vInt n, e) =>
      (Except.ok (n - 1), { s with cache := cacheInsert k (CVal.vInt (n - 1)) e s.cache })
    | some _ => (Except.error Err.cacheErr, s)
  else (Except.error Err.cacheErr, s)

/-- Models `redis.keys(p + '*').catch(() => [])`. -/
def redisKeysCaught (p : String) (s : St) : List String × St :=
  if s.cacheUp then (cacheKeysMatching s.now p s.cache, s) else ([], s)

/-! ## Durable store operations (`prisma.blogs`) -/

/-- Models `prisma.blogs.findUnique({ where: { id } })` (also `findFirst` by id);
the ghost `dbReads` counter records the durable-store read. -/
def dbFindById (id : String) (s : St) : Option Blog × St :=
  (s.db.find? (fun b => b.id == id), { s with dbReads := s.dbReads + 1 })

/-- Models `prisma.blogs.findUnique({ where: { slug } })` (also `findFirst` by slug). -/
def dbFindBySlug (slug : String) (s : St) : Option Blog × St :=
  (s.db.find? (fun b => b.slug == slug), { s with dbReads := s.dbReads + 1 })

/-- Update the first row with the given id (row ids are unique in the store). -/
def dbUpdateFirst (id : String) (f : Blog → Blog) : List Blog → List Blog
  | [] => []
  | b :: rest => if b.id == id then f b :: rest else b :: dbUpdateFirst id f rest

/-- Models `prisma.blogs.update({ where: { id }, data })`: throws when no row
matches. -/
def dbUpdateE (id : String) (f : Blog → Blog) (s : St) : Except Err Blog × St :=
  match s.db.find? (fun b => b.id == id) with
  | none => (Except.error Err.dbErr, s)
  | some b => (Except.ok (f b), { s with db := dbUpdateFirst id f s.db })

/-- Models `prisma.blogs.delete({ where: { id } })`. -/
def dbDeleteE (id : String) (s : St) : Except Err Unit × St :=
  match s.db.find? (fun b => b.id == id) with
  | none => (Except.error Err.dbErr, s)
  | some _ => (Except.ok (), { s with db := s.db.filter (fun b => decide (b.id ≠ id)) })

/-- Models `prisma.blogs.create({ data })`. -/
def dbCreate (b : Blog) (s : St) : St := { s with db := s.db ++ [b] }

/-- The counter-flush write
`prisma.blogs.update({ where: { id }, data: { views: { increment: amt } } })`;
the ghost `viewFlushes` log records each issued durable view increment. -/
def dbIncrViewsE (id : String) (amt : Int) (s : St) : Except Err Unit × St :=
  match dbUpdateE id (fun b => { b with views := b.views + amt }) s with
  | (Except.ok _, s') => (Except.ok (), { s' with viewFlushes := (id, amt) :: s'.viewFlushes })
  | (Except.error e, s') => (Except.error e, s')

/-! ## Cache key and TTL constants (`CacheKeys`, `CacheTTL`) -/

namespace CacheKeys

def blog (id : String) : String := "blog:" ++ id

def blogSlug (slug : String) : String := "blog:slug:" ++ slug

def allBlogs (page limit : Nat) : String :=
  "blogs:all:" ++ toString page ++ ":" ++ toString limit

def myBlogs (userId : String) : String := "blogs:user:" ++ userId

def trending : String := "blogs:trending"

def views (id : String) : String := "blog:views:" ++ id

def likes (id : String) : String := "blog:likes:" ++ id

def userLike (userId blogId : String) : String :=
  "blog:userlike:" ++ userId ++ ":" ++ blogId

end CacheKeys

namespace CacheTTL

def blog : Nat := 3600

def list : Nat := 600

def trending : Nat := 300

def userLike : Nat := 86400 * 30

end CacheTTL

/-! ## Safe cache helpers (`safeRedisSet`, `safeRedisDel`, `safeRedisGet`) -/

/-- Models `safeRedisSet`: `redis.setex` with the error logged and swallowed. -/
def safeRedisSet (k : String) (ttl : Nat) (v : CVal) (s : St) : St :=
  match redisSetexE k ttl v s with
  | (_, s') => s'

/-- Models `safeRedisDel`: returns at once on an empty key list, otherwise
`redis.del` with the error logged and swallowed. -/
def safeRedisDel (ks : List String) (s : St) : St :=
  if ks.isEmpty then s
  else match redisDelE ks s with
  | (_, s') => s'

/-- Models `safeRedisGet`: `redis.get` returning `null` when the cache errors. -/
def safeRedisGet (k : String) (s : St) : Option CVal × St :=
  match redisGetE k s with
  | (Except.ok v, s') => (v, s')
  | (Except.error _, s') => (none, s')

/-- Models `redis.incr(key).catch(() => {})`. -/
def redisIncrSwallow (k : String) (s : St) : St :=
  match redisIncrE k s with
  | (_, s') => s'

/-- Models `redis.decr(key).catch(() => {})`. -/
def redisDecrSwallow (k : String) (s : St) : St :=
  match redisDecrE k s with
  | (_, s') => s'

/-! ## Cache invalidation (`invalidateBlogCache`) -/

/-- Delete the post's primary key, the trending key, the slug key when one
is supplied, and every `blogs:all:*` and `blogs:user:*` listing key. -/
def invalidateBlogCache (blogId : String) (slug : Option String) (s : St) : St :=
  let keysToDelete :=
    [CacheKeys.blog blogId, CacheKeys.trending] ++
      (match slug with
       | some sl => [CacheKeys.blogSlug sl]
       | none => [])
  let r1 := redisKeysCaught "blogs:all:" s
  let r2 := redisKeysCaught "blogs:user:" r1.2
  safeRedisDel (keysToDelete ++ r1.1 ++ r2.1) r2.2

/-! ## Service functions -/

/-- The fields of `req.body` consumed by `createIntoDb`. -/
structure CreateBody where
  title : String
  description : String
  slug : String
  tags : Option (List String)
  published : Option Bool
deriving Repr, DecidableEq

/-- Models `createIntoDb`: slug-uniqueness check, insert, snapshot both cache keys,
then drop the listing caches.  `newId` stands for the row id generated by
the store. -/
def createIntoDb (userIdOpt : Option String) (body : CreateBody) (newId : String)
    (s : St) : Except Err Blog × St :=
  match userIdOpt with
  | none => (Except.error Err.unauthenticated, s)
  | some userId =>
    let r := dbFindBySlug body.slug s
    match r.1 with
    | some _ => (Except.error Err.conflict, r.2)
    | none =>
      let blog : Blog :=
        { id := newId
          slug := body.slug
          title := body.title
          description := body.description
          tags := body.tags.getD []              -- tags || []
          published := body.published.getD false -- published || false
          isDeleted := false
          userId := userId
          views := 0
          likes := 0 }
      let s2 := dbCreate blog r.2
      let s3 := safeRedisSet (CacheKeys.blog blog.id) CacheTTL.blog (CVal.vBlog blog) s2
      let s4 := safeRedisSet (CacheKeys.blogSlug blog.slug) CacheTTL.blog (CVal.vBlog blog) s3
      let rl := redisKeysCaught "blogs:all:" s4
      let ru := redisKeysCaught ("blogs:user:" ++ userId) rl.2
      (Except.ok blog, safeRedisDel (rl.1 ++ ru.1) ru.2)

/-- Models `incrementViews` without its owner-check prologue: `INCR` the view
counter, flush a batch of 10 to the store when the counter hits a multiple
of 10, then delete the post's primary snapshot key.  The whole body runs in
a `try`/`catch` that logs and swallows every error, so a failure simply
stops the remaining steps. -/
def incrementViewsCore (blogId : String) (s : St) : St :=
  match redisIncrE (CacheKeys.views blogId) s with
  | (Except.error _, s1) => s1
  | (Except.ok views, s1) =>
    if views % 10 == 0 then
      match dbIncrViewsE blogId 10 s1 with
      | (Except.error _, s2) => s2
      | (Except.ok _, s2) => safeRedisDel [CacheKeys.blog blogId] s2
    else safeRedisDel [CacheKeys.blog blogId] s1

/-- Models `incrementViews(blogId, currentUserId?)`: when a user id is supplied and
it owns the post, do nothing; otherwise run the counter logic. -/
def incrementViews (blogId : String) (currentUserId : Option String) (s : St) : St :=
  match currentUserId with
  | some uid =>
    let r := dbFindById blogId s
    match r.1 with
    | some b => if b.userId == uid then r.2 else incrementViewsCore blogId r.2
    | none => incrementViewsCore blogId r.2
  | none => incrementViewsCore blogId s

/-- A `getBlog` lookup argument: `{ id }` or `{ slug }`. -/
inductive BlogQuery where
  | byId (id : String)
  | bySlug (slug : String)
deriving Repr, DecidableEq

/-- Models `parseInt((await safeRedisGet(views-key)) || '0')`: the unflushed view
delta read on a cache hit (view-counter keys are only ever written by
`INCR`, so the stored value is always an integer). -/
def viewsDeltaOf : Option CVal → Int
  | some (CVal.vInt n) => n
  | _ => 0

/-- Models `getBlog({ id, slug })`: cache-aside read.  On a hit the snapshot is
parsed, the view increment runs, and the unflushed counter is merged into
the returned view count.  On a miss the store is read; an absent or
soft-deleted row raises `NotFound`; otherwise the snapshot is cached for an
hour and the view increment runs. -/
def getBlog (q : BlogQuery) (s : St) : Except Err Blog × St :=
  let cacheKey :=
    match q with
    | BlogQuery.byId id => CacheKeys.blog id
    | BlogQuery.bySlug sl => CacheKeys.blogSlug sl
  match safeRedisGet cacheKey s with
  | (some (CVal.vBlog b), s1) =>
    let s2 := incrementViews b.id none s1
    let r := safeRedisGet (CacheKeys.views b.id) s2
    (Except.ok { b with views := b.views + viewsDeltaOf r.1 }, r.2)
  | (some _, s1) => (Except.error Err.parseErr, s1)
  | (none, s1) =>
    let r :=
      match q with
      | BlogQuery.byId id => dbFindById id s1
      | BlogQuery.bySlug sl => dbFindBySlug sl s1
    match r.1 with
    | none => (Except.error Err.notFound, r.2)
    | some b =>
      if b.isDeleted then (Except.error Err.notFound, r.2)
      else
        let s3 := safeRedisSet cacheKey CacheTTL.blog (CVal.vBlog b) r.2
        (Except.ok b, incrementViews b.id none s3)

/-- Models `getBlogByIdFromDB(id) = getBlog({ id })`. -/
def getBlogByIdFromDB (id : String) (s : St) : Except Err Blog × St :=
  getBlog (BlogQuery.byId id) s

/-- Models `getBlogBySlug(slug) = getBlog({ slug })`. -/
def getBlogBySlug (slug : String) (s : St) : Except Err Blog × St :=
  getBlog (BlogQuery.bySlug slug) s

/-- The fields of an `updateIntoDb` patch (`Partial` blog data). -/
structure UpdatePatch where
  title : Option String
  description : Option String
  slug : Option String
  tags : Option (List String)
  published : Option Bool
deriving Repr, DecidableEq

/-- Spreading `{ ...data }` over the existing row. -/
def applyPatch (p : UpdatePatch) (b : Blog) : Blog :=
  { b with
    title := p.title.getD b.title
    description := p.description.getD b.description
    slug := p.slug.getD b.slug
    tags := p.tags.getD b.tags
    published := p.published.getD b.published }

/-- Models `data.slug` as a truthy value (`''` is falsy in JavaScript). -/
def patchSlugTruthy (p : UpdatePatch) : Option String :=
  match p.slug with
  | some sl => if sl = "" then none else some sl
  | none => none

/-- Models `updateIntoDb(id, data)`: existence check, slug-uniqueness check when
the slug changes, update, full invalidation, then re-cache the fresh
snapshot under the primary key (and under the new slug when it changed). -/
def updateIntoDb (id : String) (patch : UpdatePatch) (s : St) : Except Err Blog × St :=
  let r := dbFindById id s
  match r.1 with
  | none => (Except.error Err.notFound, r.2)
  | some existingBlog =>
    if existingBlog.isDeleted then (Except.error Err.notFound, r.2)
    else
      let newSlug :=
        match patchSlugTruthy patch with
        | some sl => if sl ≠ existingBlog.slug then some sl else none
        | none => none
      let rc :=
        match newSlug with
        | some sl =>
          let rs := dbFindBySlug sl r.2
          (rs.1.isSome, rs.2)
        | none => (false, r.2)
      if rc.1 then (Except.error Err.conflict, rc.2)
      else
        match dbUpdateE id (applyPatch patch) rc.2 with
        | (Except.error e, s3) => (Except.error e, s3)
        | (Except.ok updatedBlog, s3) =>
          let s4 := invalidateBlogCache id (some existingBlog.slug) s3
          let s5 := safeRedisSet (CacheKeys.blog id) CacheTTL.blog (CVal.vBlog updatedBlog) s4
          let s6 :=
            if updatedBlog.slug ≠ existingBlog.slug then
              safeRedisSet (CacheKeys.blogSlug updatedBlog.slug) CacheTTL.blog
                (CVal.vBlog updatedBlog) s5
            else s5
          (Except.ok updatedBlog, s6)

/-- Models `deleteIntoDb(id)`: hard delete, then full cache invalidation. -/
def deleteIntoDb (id : String) (s : St) : Except Err String × St :=
  let r := dbFindById id s
  match r.1 with
  | none => (Except.error Err.notFound, r.2)
  | some blog =>
    match dbDeleteE id r.2 with
    | (Except.error e, s2) => (Except.error e, s2)
    | (Except.ok _, s2) =>
      (Except.ok "Blog deleted successfully", invalidateBlogCache id (some blog.slug) s2)

/-- Models `softDeleteIntoDb(id)`: set `isDeleted`, then full cache invalidation. -/
def softDeleteIntoDb (id : String) (s : St) : Except Err String × St :=
  let r := dbFindById id s
  match r.1 with
  | none => (Except.error Err.notFound, r.2)
  | some blog =>
    if blog.isDeleted then (Except.error Err.notFound, r.2)
    else
      match dbUpdateE id (fun b => { b with isDeleted := true }) r.2 with
      | (Except.error e, s2) => (Except.error e, s2)
      | (Except.ok _, s2) =>
        (Except.ok "Blog soft deleted successfully", invalidateBlogCache id (some blog.slug) s2)

/-- Models `likeBlog(blogId, userId)`: reject when the per-user like marker exists;
otherwise set the marker (30-day TTL), bump the cache like counter, add one
to the persisted like count, and invalidate (without the slug key). -/
def likeBlog (blogId userId : String) (s : St) : Except Err String × St :=
  let userLikeKey := CacheKeys.userLike userId blogId
  match safeRedisGet userLikeKey s with
  | (some _, s1) => (Except.error Err.alreadyLiked, s1)
  | (none, s1) =>
    let s2 := safeRedisSet userLikeKey CacheTTL.userLike (CVal.vStr "1") s1
    let s3 := redisIncrSwallow (CacheKeys.likes blogId) s2
    match dbUpdateE blogId (fun b => { b with likes := b.likes + 1 }) s3 with
    | (Except.error e, s4) => (Except.error e, s4)
    | (Except.ok _, s4) =>
      (Except.ok "Blog liked successfully", invalidateBlogCache blogId none s4)

/-- Models `unlikeBlog(blogId, userId)`: reject when no marker exists; otherwise
delete the marker, decrement the cache like counter, subtract one from the
persisted like count, and invalidate (without the slug key). -/
def unlikeBlog (blogId userId : String) (s : St) : Except Err String × St :=
  let userLikeKey := CacheKeys.userLike userId blogId
  match safeRedisGet userLikeKey s with
  | (none, s1) => (Except.error Err.notLiked, s1)
  | (some _, s1) =>
    let s2 := safeRedisDel [userLikeKey] s1
    let s3 := redisDecrSwallow (CacheKeys.likes blogId) s2
    match dbUpdateE blogId (fun b => { b with likes := b.likes - 1 }) s3 with
    | (Except.error e, s4) => (Except.error e, s4)
    | (Except.ok _, s4) =>
      (Except.ok "Blog unliked successfully", invalidateBlogCache blogId none s4)

/-- The tag-search cache key
``blogs:search:tags:${tags.sort().join(',')}``. -/
def searchTagsCacheKey (tags : List String) : String :=
  "blogs:search:tags:" ++ joinComma (jsSort tags)

/-- The tag-search store query: posts that are published, not soft-deleted,
and carry at least one of the given tags (`tags: { hasSome: tags }`);
ordering by creation time is modelled by the stable store order. -/
def dbFindManyByTags (tags : List String) (s : St) : List Blog × St :=
  (s.db.filter (fun b =>
      b.tags.any (fun t => tags.contains t) && b.published && !b.isDeleted),
   { s with dbReads := s.dbReads + 1 })

/-- Models `searchByTags(tags)`: cache-aside over the tag-search key.  `tags.sort()`
reorders the caller's array in place; both the cache key and the store query
then use the sorted contents. -/
def searchByTags (tags : List String) (s : St) : Except Err (List Blog) × St :=
  let sortedTags := jsSort tags
  let cacheKey := "blogs:search:tags:" ++ joinComma sortedTags
  match safeRedisGet cacheKey s with
  | (some (CVal.vBlogs bs), s1) => (Except.ok bs, s1)
  | (some _, s1) => (Except.error Err.parseErr, s1)
  | (none, s1) =>
    let r := dbFindManyByTags sortedTags s1
    (Except.ok r.1, safeRedisSet cacheKey CacheTTL.list (CVal.vBlogs r.1) r.2)

/-- The contents of the caller's `tags` array after `searchByTags` returns:
`Array.prototype.sort` sorts the array in place (it returns the same array
object, not a copy), so a caller sharing the array sees the sorted
contents. -/
def searchByTagsArgAfter (tags : List String) : List String := jsSort tags

/-! ## Derived definitions used by the verification -/

/-- The keys `invalidateBlogCache` deletes. -/
def invalidateTargets (blogId : String) (slug : Option String) (s : St) : List String :=
  ([CacheKeys.blog blogId, CacheKeys.trending] ++
      (match slug with
       | some sl => [CacheKeys.blogSlug sl]
       | none => [])) ++
    cacheKeysMatching s.now "blogs:all:" s.cache ++
    cacheKeysMatching s.now "blogs:user:" s.cache

/-- Models `n` sequential `incrementViews(blogId)` calls (the `recordView` path). -/
def iterateViews (bid : String) : Nat → St → St
  | 0, s => s
  | n + 1, s => incrementViews bid none (iterateViews bid n s)

/-- Outcome of one `likeBlog` invocation in the interleaved model. -/
inductive LikeOutcome where
  | running
  | ok
  | already
  | failed
deriving Repr, DecidableEq

/-- A `likeBlog` invocation in flight: its next suspension point and its
outcome once finished. -/
structure LikeThread where
  pc : Nat
  outcome : LikeOutcome
deriving Repr, DecidableEq

/-- One step of `likeBlog(blogId, userId)`, cut at its `await` suspension
points: 0 reads the like marker (failing with `AlreadyLiked` when present),
1 writes the marker with a plain `SETEX` (not an atomic set-if-absent),
2 bumps the cache like counter, 3 adds one to the persisted like count and
4 invalidates the post's cache keys. -/
def likeStep (blogId userId : String) (t : LikeThread) (s : St) : LikeThread × St :=
  if t.outcome ≠ LikeOutcome.running then (t, s)
  else
    match t.pc with
    | 0 =>
      match safeRedisGet (CacheKeys.userLike userId blogId) s with
      | (some _, s') => ({ t with outcome := LikeOutcome.already }, s')
      | (none, s') => ({ t with pc := 1 }, s')
    | 1 => ({ t with pc := 2 },
        safeRedisSet (CacheKeys.userLike userId blogId) CacheTTL.userLike (CVal.vStr "1") s)
    | 2 => ({ t with pc := 3 }, redisIncrSwallow (CacheKeys.likes blogId) s)
    | 3 =>
      match dbUpdateE blogId (fun b => { b with likes := b.likes + 1 }) s with
      | (Except.error _, s') => ({ t with outcome := LikeOutcome.failed }, s')
      | (Except.ok _, s') => ({ t with pc := 4 }, s')
    | _ => ({ t with outcome := LikeOutcome.ok }, invalidateBlogCache blogId none s)

/-- Run two concurrent `likeBlog` invocations for the same (post, user)
pair under a schedule: `true` steps the first call, `false` the second. -/
def runLikePair (blogId userId : String) :
    List Bool → LikeThread × LikeThread × St → LikeThread × LikeThread × St
  | [], r => r
  | c :: rest, (t1, t2, s) =>
    if c then
      let r := likeStep blogId userId t1 s
      runLikePair blogId userId rest (r.1, t2, r.2)
    else
      let r := likeStep blogId userId t2 s
      runLikePair blogId userId rest (t1, r.1, r.2)

/-- A `likeBlog` call about to run its marker check. -/
def likeThreadInit : LikeThread := { pc := 0, outcome := LikeOutcome.running }

/-- The racy interleaving: both marker checks run before either marker
write. -/
def raceSchedule : List Bool :=
  [true, false, true, true, true, true, false, false, false, false]

/-- The serialized interleaving: the first call completes before the second
starts. -/
def serialSchedule : List Bool :=
  [true, true, true, true, true, false, false, false, false, false]

/-- A sample post used for the concrete executions. -/
def testBlog : Blog :=
  { id := "p1", slug := "s1", title := "t", description := "d", tags := ["a"],
    published := true, isDeleted := false, userId := "u1", views := 0, likes := 0 }

/-- A fresh state: one post in the store, empty cache, cache reachable. -/
def testSt : St :=
  { db := [testBlog], cache := [], now := 0, cacheUp := true, dbReads := 0,
    viewFlushes := [] }

/-- A state whose cache still holds the post's slug snapshot. -/
def testStSlugCached : St :=
  { db := [testBlog],
    cache := [(CacheKeys.blogSlug "s1", CVal.vBlog testBlog, some 1000)],
    now := 0, cacheUp := true, dbReads := 0, viewFlushes := [] }

/-- A state where user u1 holds a like marker for p1 while the persisted
like count is 0. -/
def testStLikedZero : St :=
  { db := [testBlog],
    cache := [(CacheKeys.userLike "u1" "p1", CVal.vStr "1", some 1000)],
    now := 0, cacheUp := true, dbReads := 0, viewFlushes := [] }

/-- A sample update patch that changes the post's slug to s2. -/
def testPatch : UpdatePatch :=
  { title := none, description := none, slug := some "s2", tags := none, published := none }

/-- A state with an unreachable cache: every Redis call raises. -/
def testStDown : St :=
  { db := [testBlog], cache := [], now := 0, cacheUp := false, dbReads := 0,
    viewFlushes := [] }

/-! ## Properties of the JavaScript string sort -/

/-- The sort order as a relation. -/
def jsR (a b : String) : Prop := jsStrLE a b = true

lemma charListLE_total : ∀ as bs : List Char, charListLE as bs = true ∨ charListLE bs as = true := by
  intro as
  induction as with
  | nil => intro bs; left; rfl
  | cons a as ih =>
    intro bs
    cases bs with
    | nil => right; rfl
    | cons b bs =>
      by_cases h1 : a.toNat < b.toNat
      · left; simp [charListLE, h1]
      · by_cases h2 : b.toNat < a.toNat
        · right; simp [charListLE, h2]
        · rcases ih bs with h | h
          · left; simp [charListLE, h1, h2, h]
          · right; simp [charListLE, h1, h2, h]

lemma charListLE_antisymm : ∀ as bs : List Char,
    charListLE as bs = true → charListLE bs as = true → as = bs := by
  intro as
  induction as with
  | nil =>
    intro bs h1 h2
    cases bs with
    | nil => rfl
    | cons b bs => simp [charListLE] at h2
  | cons a as ih =>
    intro bs h1 h2
    cases bs with
    | nil => simp [charListLE] at h1
    | cons b bs =>
      by_cases hab : a.toNat < b.toNat
      · simp [charListLE, hab, Nat.lt_asymm hab] at h2
      · by_cases hba : b.toNat < a.toNat
        · simp [charListLE, hab, hba] at h1
        · have hval : a.toNat = b.toNat := Nat.le_antisymm (Nat.le_of_not_lt hba) (Nat.le_of_not_lt hab)
          have hchar : a = b := Char.ext (UInt32.ext hval)
          subst hchar
          simp [charListLE, hab, hba] at h1 h2
          rw [ih bs h1 h2]

lemma charListLE_trans : ∀ as bs cs : List Char,
    charListLE as bs = true → charListLE bs cs = true → charListLE as cs = true := by
  intro as
  induction as with
  | nil => intro bs cs _ _; rfl
  | cons a as ih =>
    intro bs cs h1 h2
    cases bs with
    | nil => simp [charListLE] at h1
    | cons b bs =>
      cases cs with
      | nil => simp [charListLE] at h2
      | cons c cs =>
        by_cases hab : a.toNat < b.toNat
        · by_cases hbc : b.toNat < c.toNat
          · simp [charListLE, Nat.lt_trans hab hbc]
          · by_cases hcb : c.toNat < b.toNat
            · simp [charListLE, hbc, hcb] at h2
            · have : b.toNat = c.toNat := Nat.le_antisymm (Nat.le_of_not_lt hcb) (Nat.le_of_not_lt hbc)
              simp [charListLE, this ▸ hab]
        · by_cases hba : b.toNat < a.toNat
          · simp [charListLE, hab, hba] at h1
          · have hval : a.toNat = b.toNat := Nat.le_antisymm (Nat.le_of_not_lt hba) (Nat.le_of_not_lt hab)
            simp [charListLE, hab, hba] at h1
            by_cases hbc : b.toNat < c.toNat
            · simp [charListLE, hval ▸ hbc]
            · by_cases hcb : c.toNat < b.toNat
              · simp [charListLE, hbc, hcb] at h2
              · simp [charListLE, hbc, hcb] at h2
                have hac : ¬ a.toNat < c.toNat := by omega
                have hca : ¬ c.toNat < a.toNat := by omega
                simp [charListLE, hac, hca, ih bs cs h1 h2]

lemma jsR_total (a b : String) : jsR a b ∨ jsR b a := charListLE_total a.data b.data

lemma jsR_antisymm {a b : String} (h1 : jsR a b) (h2 : jsR b a) : a = b :=
  String.ext (charListLE_antisymm _ _ h1 h2)

lemma jsR_trans {a b c : String} (h1 : jsR a b) (h2 : jsR b c) : jsR a c :=
  charListLE_trans _ _ _ h1 h2

lemma perm_insertSorted (a : String) (l : List String) :
    (insertSorted a l).Perm (a :: l) := by
  induction l with
  | nil => rfl
  | cons b t ih =>
    rw [insertSorted]
    by_cases h : jsStrLE a b = true
    · simp [h]
    · rw [if_neg h]
      exact (ih.cons b).trans (List.Perm.swap a b t)

lemma perm_jsSort (l : List String) : (jsSort l).Perm l := by
  induction l with
  | nil => rfl
  | cons a t ih =>
    rw [jsSort]
    exact (perm_insertSorted a (jsSort t)).trans (ih.cons a)

lemma mem_insertSorted {x a : String} {l : List String} :
    x ∈ insertSorted a l ↔ x = a ∨ x ∈ l := by
  rw [(perm_insertSorted a l).mem_iff]
  simp

lemma sorted_insertSorted {a : String} {l : List String}
    (h : List.Sorted jsR l) : List.Sorted jsR (insertSorted a l) := by
  induction l with
  | nil => simp [insertSorted]
  | cons b t ih =>
    rw [insertSorted]
    rw [List.sorted_cons] at h
    by_cases hab : jsStrLE a b = true
    · rw [if_pos hab, List.sorted_cons, List.sorted_cons]
      refine ⟨?_, h⟩
      intro x hx
      rw [List.mem_cons] at hx
      rcases hx with hx | hx
      · rw [hx]; exact hab
      · exact jsR_trans hab (h.1 x hx)
    · rw [if_neg hab, List.sorted_cons]
      refine ⟨?_, ih h.2⟩
      intro x hx
      rcases mem_insertSorted.mp hx with hx | hx
      · rw [hx]
        rcases jsR_total a b with hr | hr
        · exact absurd hr hab
        · exact hr
      · exact h.1 x hx

lemma sorted_jsSort (l : List String) : List.Sorted jsR (jsSort l) := by
  induction l with
  | nil => exact List.sorted_nil
  | cons a t ih => exact sorted_insertSorted ih

/-- Set-equal inputs sort to the same list whenever they are permutations
of each other. -/
lemma jsSort_eq_of_perm {l1 l2 : List String} (h : l1.Perm l2) :
    jsSort l1 = jsSort l2 :=
  @List.eq_of_perm_of_sorted _ jsR ⟨fun _ _ => jsR_antisymm⟩ _ _
    ((perm_jsSort l1).trans (h.trans (perm_jsSort l2).symm))
    (sorted_jsSort l1) (sorted_jsSort l2)

/-! ## Distinctness of cache keys -/

lemma str_append_ne_of_get (p q a b : String) (n : Nat)
    (hp : n < p.data.length) (hq : n < q.data.length)
    (hne : p.data.get? n ≠ q.data.get? n) : p ++ a ≠ q ++ b := by
  intro h
  apply hne
  have hd : p.data ++ a.data = q.data ++ b.data := by
    rw [← String.data_append, ← String.data_append, h]
  rw [← List.get?_append hp, ← List.get?_append hq, hd]

lemma str_ne_append_of_get (p q a : String) (n : Nat)
    (hq : n < q.data.length) (hne : p.data.get? n ≠ q.data.get? n) : p ≠ q ++ a := by
  intro h
  apply hne
  have hd : p.data = q.data ++ a.data := by rw [h, String.data_append]
  rw [hd, List.get?_append hq]

lemma not_isPrefixOf_of_get {α : Type} [BEq α] [LawfulBEq α] (p k : List α) (n : Nat)
    (hn : n < p.length) (hne : p.get? n ≠ k.get? n) : p.isPrefixOf k = false := by
  rw [Bool.eq_false_iff]
  intro hpre
  rw [ List.isPrefixOf_iff_prefix] at hpre
  obtain ⟨t, rfl⟩ := hpre
  rw [List.get?_append hn] at hne
  exact hne rfl

lemma strStartsWith_append_false (p c x : String) (n : Nat)
    (hn : n < p.data.length) (hc : n < c.data.length)
    (hne : p.data.get? n ≠ c.data.get? n) :
    strStartsWith p (c ++ x) = false := by
  unfold strStartsWith
  apply not_isPrefixOf_of_get _ _ n hn
  rw [String.data_append, List.get?_append hc]
  exact hne

lemma key_userLike_eq (u b : String) :
    CacheKeys.userLike u b = "blog:userlike:" ++ (u ++ (":" ++ b)) := by
  show "blog:userlike:" ++ u ++ ":" ++ b = _
  rw [String.append_assoc, String.append_assoc]

lemma key_views_ne_blog (i : String) : CacheKeys.views i ≠ CacheKeys.blog i := by
  intro h
  have hl : ("blog:views:" ++ i).length = ("blog:" ++ i).length := congrArg String.length h
  rw [String.length_append, String.length_append] at hl
  have e1 : ("blog:views:" : String).length = 11 := by decide
  have e2 : ("blog:" : String).length = 5 := by decide
  omega

lemma key_userLike_ne_blog (u b : String) : CacheKeys.userLike u b ≠ CacheKeys.blog b := by
  intro h
  have hl : ("blog:userlike:" ++ u ++ ":" ++ b).length = ("blog:" ++ b).length :=
    congrArg String.length h
  simp only [String.length_append] at hl
  have e1 : ("blog:userlike:" : String).length = 14 := by decide
  have e2 : (":" : String).length = 1 := by decide
  have e3 : ("blog:" : String).length = 5 := by decide
  omega

lemma key_userLike_ne_trending (u b : String) :
    CacheKeys.userLike u b ≠ CacheKeys.trending := by
  intro h
  have hl : ("blog:userlike:" ++ u ++ ":" ++ b).length = ("blogs:trending" : String).length :=
    congrArg String.length h
  simp only [String.length_append] at hl
  have e1 : ("blog:userlike:" : String).length = 14 := by decide
  have e2 : (":" : String).length = 1 := by decide
  have e3 : ("blogs:trending" : String).length = 14 := by decide
  omega

lemma key_userLike_ne_likes (u b : String) : CacheKeys.userLike u b ≠ CacheKeys.likes b := by
  intro h
  have hl : ("blog:userlike:" ++ u ++ ":" ++ b).length = ("blog:likes:" ++ b).length :=
    congrArg String.length h
  simp only [String.length_append] at hl
  have e1 : ("blog:userlike:" : String).length = 14 := by decide
  have e2 : (":" : String).length = 1 := by decide
  have e3 : ("blog:likes:" : String).length = 11 := by decide
  omega

lemma key_slug_ne_views (sl i : String) : CacheKeys.blogSlug sl ≠ CacheKeys.views i :=
  str_append_ne_of_get "blog:slug:" "blog:views:" sl i 5 (by decide) (by decide) (by decide)

lemma key_trending_ne_blog (i : String) : CacheKeys.trending ≠ CacheKeys.blog i :=
  str_ne_append_of_get "blogs:trending" "blog:" i 4 (by decide) (by decide)

lemma key_trending_ne_blogSlug (sl : String) : CacheKeys.trending ≠ CacheKeys.blogSlug sl :=
  str_ne_append_of_get "blogs:trending" "blog:slug:" sl 4 (by decide) (by decide)

lemma key_blogSlug_inj {a b : String} (h : CacheKeys.blogSlug a = CacheKeys.blogSlug b) :
    a = b := by
  apply String.ext
  have hd : ("blog:slug:" : String).data ++ a.data = ("blog:slug:" : String).data ++ b.data := by
    rw [← String.data_append, ← String.data_append]
    exact congrArg String.data h
  exact List.append_cancel_left hd

lemma not_sw_all_blog (i : String) :
    strStartsWith "blogs:all:" (CacheKeys.blog i) = false :=
  strStartsWith_append_false "blogs:all:" "blog:" i 4 (by decide) (by decide) (by decide)

lemma not_sw_user_blog (i : String) :
    strStartsWith "blogs:user:" (CacheKeys.blog i) = false :=
  strStartsWith_append_false "blogs:user:" "blog:" i 4 (by decide) (by decide) (by decide)

lemma not_sw_all_blogSlug (sl : String) :
    strStartsWith "blogs:all:" (CacheKeys.blogSlug sl) = false :=
  strStartsWith_append_false "blogs:all:" "blog:slug:" sl 4 (by decide) (by decide) (by decide)

lemma not_sw_user_blogSlug (sl : String) :
    strStartsWith "blogs:user:" (CacheKeys.blogSlug sl) = false :=
  strStartsWith_append_false "blogs:user:" "blog:slug:" sl 4 (by decide) (by decide) (by decide)

lemma not_sw_all_userLike (u b : String) :
    strStartsWith "blogs:all:" (CacheKeys.userLike u b) = false := by
  rw [key_userLike_eq]
  exact strStartsWith_append_false _ _ _ 4 (by decide) (by decide) (by decide)

lemma not_sw_user_userLike (u b : String) :
    strStartsWith "blogs:user:" (CacheKeys.userLike u b) = false := by
  rw [key_userLike_eq]
  exact strStartsWith_append_false _ _ _ 4 (by decide) (by decide) (by decide)

/-! ## Cache lookup lemmas -/

lemma cacheFindE_cacheErase_ne (now : Nat) (k k' : String) (c : Cache) (h : k ≠ k') :
    cacheFindE now k (cacheErase k' c) = cacheFindE now k c := by
  induction c with
  | nil => rfl
  | cons e rest ih =>
    obtain ⟨ke, ve, xe⟩ := e
    rw [cacheErase]
    by_cases hk : ke = k'
    · rw [if_pos hk, ih, cacheFindE, if_neg (by rw [hk]; exact Ne.symm h)]
    · rw [if_neg hk, cacheFindE, cacheFindE]
      by_cases hkk : ke = k
      · rw [if_pos hkk, if_pos hkk]
      · rw [if_neg hkk, if_neg hkk, ih]

lemma cacheFindE_cacheInsert_self (now : Nat) (k : String) (v : CVal) (e : Option Nat)
    (c : Cache) :
    cacheFindE now k (cacheInsert k v e c) =
      if entryLive now e then some (v, e) else none := by
  rw [cacheInsert, cacheFindE, if_pos rfl]

lemma cacheFindE_cacheInsert_ne (now : Nat) (k k' : String) (v : CVal) (e : Option Nat)
    (c : Cache) (h : k ≠ k') :
    cacheFindE now k (cacheInsert k' v e c) = cacheFindE now k c := by
  rw [cacheInsert, cacheFindE, if_neg (Ne.symm h)]
  exact cacheFindE_cacheErase_ne now k k' c h

lemma cacheFindE_cacheEraseAll_mem (now : Nat) (k : String) (ks : List String) (c : Cache)
    (h : k ∈ ks) : cacheFindE now k (cacheEraseAll ks c) = none := by
  induction c with
  | nil => rfl
  | cons e rest ih =>
    obtain ⟨ke, ve, xe⟩ := e
    rw [cacheEraseAll]
    by_cases hk : ke ∈ ks
    · rw [if_pos hk]; exact ih
    · rw [if_neg hk, cacheFindE, if_neg (fun hh : ke = k => hk (hh ▸ h))]
      exact ih

lemma cacheFindE_cacheEraseAll_not_mem (now : Nat) (k : String) (ks : List String) (c : Cache)
    (h : k ∉ ks) : cacheFindE now k (cacheEraseAll ks c) = cacheFindE now k c := by
  induction c with
  | nil => rfl
  | cons e rest ih =>
    obtain ⟨ke, ve, xe⟩ := e
    rw [cacheEraseAll]
    by_cases hk : ke ∈ ks
    · rw [if_pos hk, ih, cacheFindE, if_neg (fun hh : ke = k => h (hh ▸ hk))]
    · rw [if_neg hk, cacheFindE, cacheFindE]
      by_cases hkk : ke = k
      · rw [if_pos hkk, if_pos hkk]
      · rw [if_neg hkk, if_neg hkk, ih]

lemma cacheFindE_cacheEraseAll_none (now : Nat) (k : String) (ks : List String) (c : Cache)
    (h : cacheFindE now k c = none) :
    cacheFindE now k (cacheEraseAll ks c) = none := by
  by_cases hk : k ∈ ks
  · exact cacheFindE_cacheEraseAll_mem now k ks c hk
  · rw [cacheFindE_cacheEraseAll_not_mem now k ks c hk]; exact h

lemma mem_cacheKeysMatching_of_find (now : Nat) (p k : String) (c : Cache)
    (hpre : strStartsWith p k = true) (v : CVal) (e : Option Nat)
    (hfind : cacheFindE now k c = some (v, e)) :
    k ∈ cacheKeysMatching now p c := by
  induction c with
  | nil => simp [cacheFindE] at hfind
  | cons en rest ih =>
    obtain ⟨ke, ve, xe⟩ := en
    rw [cacheKeysMatching]
    by_cases hk : ke = k
    · subst hk
      rw [cacheFindE, if_pos rfl] at hfind
      by_cases hl : entryLive now xe = true
      · rw [if_pos (by simp [hl, hpre])]
        exact List.mem_cons_self ke _
      · rw [if_neg hl] at hfind; exact absurd hfind (by simp)
    · rw [cacheFindE, if_neg hk] at hfind
      by_cases hc : (entryLive now xe && strStartsWith p ke) = true
      · rw [if_pos hc]
        exact List.mem_cons_of_mem ke (ih hfind)
      · rw [if_neg hc]
        exact ih hfind

lemma startsWith_of_mem_cacheKeysMatching (now : Nat) (p k : String) (c : Cache)
    (h : k ∈ cacheKeysMatching now p c) : strStartsWith p k = true := by
  induction c with
  | nil => simp [cacheKeysMatching] at h
  | cons en rest ih =>
    obtain ⟨ke, ve, xe⟩ := en
    rw [cacheKeysMatching] at h
    by_cases hc : (entryLive now xe && strStartsWith p ke) = true
    · rw [if_pos hc] at h
      rcases List.mem_cons.mp h with rfl | h
      · exact (Bool.and_eq_true_iff.mp hc).2
      · exact ih h
    · rw [if_neg hc] at h
      exact ih h

lemma cacheFindE_none_mono (now d : Nat) (k : String) (c : Cache)
    (h : cacheFindE now k c = none) : cacheFindE (now + d) k c = none := by
  induction c with
  | nil => rfl
  | cons e rest ih =>
    obtain ⟨ke, ve, xe⟩ := e
    by_cases hk : ke = k
    · rw [cacheFindE, if_pos hk] at h ⊢
      cases xe with
      | none => simp [entryLive] at h
      | some t =>
        simp only [entryLive] at h ⊢
        by_cases hl : now < t
        · simp [hl] at h
        · have hnl : ¬ now + d < t := by omega
          simp [hnl]
    · rw [cacheFindE, if_neg hk] at h ⊢
      exact ih h

/-! ## State-level characterizations of the cache helpers -/

lemma cacheEraseAll_nil_keys (c : Cache) : cacheEraseAll [] c = c := by
  induction c with
  | nil => rfl
  | cons e rest ih => rw [cacheEraseAll, if_neg (List.not_mem_nil e.1), ih]

lemma safeRedisGet_snd (k : String) (s : St) : (safeRedisGet k s).2 = s := by
  unfold safeRedisGet redisGetE
  by_cases h : s.cacheUp
  · rw [if_pos h]
  · rw [if_neg h]

lemma safeRedisGet_fst_up (k : String) (s : St) (h : s.cacheUp = true) :
    (safeRedisGet k s).1 = (cacheFindE s.now k s.cache).map (fun p => p.1) := by
  unfold safeRedisGet redisGetE
  rw [if_pos h]

lemma safeRedisGet_fst_down (k : String) (s : St) (h : s.cacheUp = false) :
    (safeRedisGet k s).1 = none := by
  unfold safeRedisGet redisGetE
  rw [h]
  simp

lemma safeRedisSet_eq (k : String) (ttl : Nat) (v : CVal) (s : St) :
    safeRedisSet k ttl v s =
      if s.cacheUp then { s with cache := cacheInsert k v (some (s.now + ttl)) s.cache }
      else s := by
  unfold safeRedisSet redisSetexE
  by_cases h : s.cacheUp
  · rw [if_pos h, if_pos h]
  · rw [if_neg h, if_neg h]

lemma safeRedisDel_eq (ks : List String) (s : St) :
    safeRedisDel ks s =
      if s.cacheUp then { s with cache := cacheEraseAll ks s.cache } else s := by
  unfold safeRedisDel redisDelE
  by_cases hks : ks.isEmpty
  · rw [if_pos hks]
    rcases ks with _ | ⟨a, t⟩
    · by_cases h : s.cacheUp
      · rw [if_pos h, cacheEraseAll_nil_keys]
      · rw [if_neg h]
    · simp [List.isEmpty] at hks
  · rw [if_neg hks]
    by_cases h : s.cacheUp
    · rw [if_pos h, if_pos h]
    · rw [if_neg h, if_neg h]

lemma redisIncrSwallow_eq (k : String) (s : St) :
    redisIncrSwallow k s =
      if s.cacheUp then
        match cacheFindE s.now k s.cache with
        | none => { s with cache := cacheInsert k (CVal.vInt 1) none s.cache }
        | some (CVal.vInt n, e) =>
          { s with cache := cacheInsert k (CVal.vInt (n + 1)) e s.cache }
        | some _ => s
      else s := by
  unfold redisIncrSwallow redisIncrE
  by_cases h : s.cacheUp
  · rw [if_pos h, if_pos h]
    cases hf : cacheFindE s.now k s.cache with
    | none => rfl
    | some p =>
      obtain ⟨v, e⟩ := p
      cases v <;> rfl
  · rw [if_neg h, if_neg h]

lemma redisDecrSwallow_eq (k : String) (s : St) :
    redisDecrSwallow k s =
      if s.cacheUp then
        match cacheFindE s.now k s.cache with
        | none => { s with cache := cacheInsert k (CVal.vInt (-1)) none s.cache }
        | some (CVal.vInt n, e) =>
          { s with cache := cacheInsert k (CVal.vInt (n - 1)) e s.cache }
        | some _ => s
      else s := by
  unfold redisDecrSwallow redisDecrE
  by_cases h : s.cacheUp
  · rw [if_pos h, if_pos h]
    cases hf : cacheFindE s.now k s.cache with
    | none => rfl
    | some p =>
      obtain ⟨v, e⟩ := p
      cases v <;> rfl
  · rw [if_neg h, if_neg h]

lemma dbFindById_snd (id : String) (s : St) :
    (dbFindById id s).2 = { s with dbReads := s.dbReads + 1 } := rfl

lemma dbFindBySlug_snd (slug : String) (s : St) :
    (dbFindBySlug slug s).2 = { s with dbReads := s.dbReads + 1 } := rfl

/-! ## Durable-store update lemmas -/

lemma find?_id_dbUpdateFirst (id : String) (f : Blog → Blog) (l : List Blog)
    (hf : ∀ b, (f b).id = b.id) :
    (dbUpdateFirst id f l).find? (fun b => b.id == id)
      = (l.find? (fun b => b.id == id)).map f := by
  induction l with
  | nil => rfl
  | cons b rest ih =>
    rw [dbUpdateFirst]
    by_cases h : b.id = id
    · rw [if_pos (by simp [h])]
      rw [List.find?_cons_of_pos _ (by simp only [beq_iff_eq]; rw [hf b, h]),
        List.find?_cons_of_pos _ (by simp [h])]
      rfl
    · rw [if_neg (by simp [h])]
      rw [List.find?_cons_of_neg _ (by simp [h]), List.find?_cons_of_neg _ (by simp [h]), ih]

lemma find?_slug_dbUpdateFirst (l : List Blog) (blog : Blog) (f : Blog → Blog)
    (hfs : (f blog).slug = blog.slug)
    (hid : l.Pairwise (fun a b => a.id ≠ b.id))
    (hslug : l.Pairwise (fun a b => a.slug ≠ b.slug))
    (hfind : l.find? (fun b => b.id == blog.id) = some blog) :
    (dbUpdateFirst blog.id f l).find? (fun b => b.slug == blog.slug) = some (f blog) := by
  induction l with
  | nil => simp [List.find?] at hfind
  | cons b rest ih =>
    rw [List.pairwise_cons] at hid hslug
    rw [dbUpdateFirst]
    by_cases h : b.id = blog.id
    · rw [List.find?_cons_of_pos _ (by simp [h])] at hfind
      have hb : b = blog := by injection hfind
      subst hb
      rw [if_pos (by simp)]
      rw [List.find?_cons_of_pos _ (by simp [hfs])]
    · rw [List.find?_cons_of_neg _ (by simp [h])] at hfind
      have hmem : blog ∈ rest := List.mem_of_find?_eq_some hfind
      rw [if_neg (by simp [h])]
      rw [List.find?_cons_of_neg _ (by simp [hslug.1 blog hmem])]
      exact ih hid.2 hslug.2 hfind

/-! ## Invalidation lemmas -/

lemma invalidateBlogCache_eq (bid : String) (sl : Option String) (s : St) :
    invalidateBlogCache bid sl s =
      if s.cacheUp then
        { s with cache := cacheEraseAll (invalidateTargets bid sl s) s.cache }
      else s := by
  unfold invalidateBlogCache invalidateTargets redisKeysCaught
  by_cases h : s.cacheUp
  · simp [h, safeRedisDel_eq]
  · simp [h, safeRedisDel_eq]

lemma invalidateBlogCache_frame (bid : String) (sl : Option String) (s : St) :
    (invalidateBlogCache bid sl s).db = s.db ∧ (invalidateBlogCache bid sl s).now = s.now
      ∧ (invalidateBlogCache bid sl s).cacheUp = s.cacheUp
      ∧ (invalidateBlogCache bid sl s).dbReads = s.dbReads
      ∧ (invalidateBlogCache bid sl s).viewFlushes = s.viewFlushes := by
  rw [invalidateBlogCache_eq]
  by_cases h : s.cacheUp
  · rw [if_pos h]; exact ⟨rfl, rfl, rfl, rfl, rfl⟩
  · rw [if_neg h]; exact ⟨rfl, rfl, rfl, rfl, rfl⟩

lemma invalidateBlogCache_absent (bid : String) (sl : Option String) (s : St)
    (hup : s.cacheUp = true) (k : String)
    (hk : k = CacheKeys.blog bid ∨ k = CacheKeys.trending
        ∨ (∃ x, sl = some x ∧ k = CacheKeys.blogSlug x)
        ∨ strStartsWith "blogs:all:" k = true
        ∨ strStartsWith "blogs:user:" k = true) :
    cacheFindE (invalidateBlogCache bid sl s).now k
      (invalidateBlogCache bid sl s).cache = none := by
  rw [invalidateBlogCache_eq, if_pos hup]
  show cacheFindE s.now k (cacheEraseAll (invalidateTargets bid sl s) s.cache) = none
  rcases hk with rfl | rfl | ⟨x, hx, rfl⟩ | hpre | hpre
  · exact cacheFindE_cacheEraseAll_mem _ _ _ _ (by simp [invalidateTargets])
  · exact cacheFindE_cacheEraseAll_mem _ _ _ _ (by simp [invalidateTargets])
  · subst hx
    exact cacheFindE_cacheEraseAll_mem _ _ _ _ (by simp [invalidateTargets])
  · cases hf : cacheFindE s.now k s.cache with
    | none => exact cacheFindE_cacheEraseAll_none _ _ _ _ hf
    | some p =>
      obtain ⟨v, e⟩ := p
      apply cacheFindE_cacheEraseAll_mem
      have hm := mem_cacheKeysMatching_of_find s.now _ _ s.cache hpre v e hf
      exact List.mem_append_left _ (List.mem_append_right _ hm)
  · cases hf : cacheFindE s.now k s.cache with
    | none => exact cacheFindE_cacheEraseAll_none _ _ _ _ hf
    | some p =>
      obtain ⟨v, e⟩ := p
      apply cacheFindE_cacheEraseAll_mem
      have hm := mem_cacheKeysMatching_of_find s.now _ _ s.cache hpre v e hf
      exact List.mem_append_right _ hm

lemma invalidateBlogCache_preserve (bid : String) (sl : Option String) (s : St) (k : String)
    (h1 : k ≠ CacheKeys.blog bid) (h2 : k ≠ CacheKeys.trending)
    (h3 : ∀ x, sl = some x → k ≠ CacheKeys.blogSlug x)
    (h4 : strStartsWith "blogs:all:" k = false)
    (h5 : strStartsWith "blogs:user:" k = false) :
    cacheFindE (invalidateBlogCache bid sl s).now k
      (invalidateBlogCache bid sl s).cache = cacheFindE s.now k s.cache := by
  rw [invalidateBlogCache_eq]
  by_cases hup : s.cacheUp
  · rw [if_pos hup]
    show cacheFindE s.now k (cacheEraseAll (invalidateTargets bid sl s) s.cache)
        = cacheFindE s.now k s.cache
    apply cacheFindE_cacheEraseAll_not_mem
    intro hmem
    rcases List.mem_append.mp hmem with hmem | hmem
    · rcases List.mem_append.mp hmem with hmem | hmem
      · rcases List.mem_append.mp hmem with hmem | hmem
        · rcases List.mem_cons.mp hmem with rfl | hmem
          · exact h1 rfl
          · rcases List.mem_cons.mp hmem with rfl | hmem
            · exact h2 rfl
            · simp at hmem
        · cases hsl : sl with
          | none => rw [hsl] at hmem; simp at hmem
          | some x =>
            rw [hsl] at hmem
            rcases List.mem_cons.mp hmem with rfl | hmem
            · exact h3 x hsl rfl
            · simp at hmem
      · have := startsWith_of_mem_cacheKeysMatching s.now _ k s.cache hmem
        rw [h4] at this
        exact Bool.false_ne_true this
    · have := startsWith_of_mem_cacheKeysMatching s.now _ k s.cache hmem
      rw [h5] at this
      exact Bool.false_ne_true this
  · rw [if_neg hup]

/-! ## Frame lemmas -/

lemma safeRedisSet_frame (k : String) (ttl : Nat) (v : CVal) (s : St) :
    (safeRedisSet k ttl v s).db = s.db ∧ (safeRedisSet k ttl v s).now = s.now
      ∧ (safeRedisSet k ttl v s).cacheUp = s.cacheUp
      ∧ (safeRedisSet k ttl v s).dbReads = s.dbReads
      ∧ (safeRedisSet k ttl v s).viewFlushes = s.viewFlushes := by
  rw [safeRedisSet_eq]
  by_cases h : s.cacheUp
  · rw [if_pos h]; exact ⟨rfl, rfl, rfl, rfl, rfl⟩
  · rw [if_neg h]; exact ⟨rfl, rfl, rfl, rfl, rfl⟩

lemma safeRedisDel_frame (ks : List String) (s : St) :
    (safeRedisDel ks s).db = s.db ∧ (safeRedisDel ks s).now = s.now
      ∧ (safeRedisDel ks s).cacheUp = s.cacheUp ∧ (safeRedisDel ks s).dbReads = s.dbReads
      ∧ (safeRedisDel ks s).viewFlushes = s.viewFlushes := by
  rw [safeRedisDel_eq]
  by_cases h : s.cacheUp
  · rw [if_pos h]; exact ⟨rfl, rfl, rfl, rfl, rfl⟩
  · rw [if_neg h]; exact ⟨rfl, rfl, rfl, rfl, rfl⟩

lemma redisIncrSwallow_frame (k : String) (s : St) :
    (redisIncrSwallow k s).db = s.db ∧ (redisIncrSwallow k s).now = s.now
      ∧ (redisIncrSwallow k s).cacheUp = s.cacheUp
      ∧ (redisIncrSwallow k s).dbReads = s.dbReads
      ∧ (redisIncrSwallow k s).viewFlushes = s.viewFlushes := by
  rw [redisIncrSwallow_eq]
  by_cases h : s.cacheUp
  · rw [if_pos h]
    cases hf : cacheFindE s.now k s.cache with
    | none => exact ⟨rfl, rfl, rfl, rfl, rfl⟩
    | some p =>
      obtain ⟨v, e⟩ := p
      cases v <;> exact ⟨rfl, rfl, rfl, rfl, rfl⟩
  · rw [if_neg h]; exact ⟨rfl, rfl, rfl, rfl, rfl⟩

lemma redisDecrSwallow_frame (k : String) (s : St) :
    (redisDecrSwallow k s).db = s.db ∧ (redisDecrSwallow k s).now = s.now
      ∧ (redisDecrSwallow k s).cacheUp = s.cacheUp
      ∧ (redisDecrSwallow k s).dbReads = s.dbReads
      ∧ (redisDecrSwallow k s).viewFlushes = s.viewFlushes := by
  rw [redisDecrSwallow_eq]
  by_cases h : s.cacheUp
  · rw [if_pos h]
    cases hf : cacheFindE s.now k s.cache with
    | none => exact ⟨rfl, rfl, rfl, rfl, rfl⟩
    | some p =>
      obtain ⟨v, e⟩ := p
      cases v <;> exact ⟨rfl, rfl, rfl, rfl, rfl⟩
  · rw [if_neg h]; exact ⟨rfl, rfl, rfl, rfl, rfl⟩

lemma dbUpdateE_frame (id : String) (f : Blog → Blog) (s : St) :
    (dbUpdateE id f s).2.cache = s.cache ∧ (dbUpdateE id f s).2.now = s.now
      ∧ (dbUpdateE id f s).2.cacheUp = s.cacheUp
      ∧ (dbUpdateE id f s).2.dbReads = s.dbReads
      ∧ (dbUpdateE id f s).2.viewFlushes = s.viewFlushes := by
  unfold dbUpdateE
  cases hf : s.db.find? (fun b => b.id == id) with
  | none => exact ⟨rfl, rfl, rfl, rfl, rfl⟩
  | some b => exact ⟨rfl, rfl, rfl, rfl, rfl⟩

lemma dbIncrViewsE_frame (id : String) (amt : Int) (s : St) :
    (dbIncrViewsE id amt s).2.cache = s.cache ∧ (dbIncrViewsE id amt s).2.now = s.now
      ∧ (dbIncrViewsE id amt s).2.cacheUp = s.cacheUp
      ∧ (dbIncrViewsE id amt s).2.dbReads = s.dbReads := by
  unfold dbIncrViewsE
  have hfr := dbUpdateE_frame id (fun b => { b with views := b.views + amt }) s
  cases hu : dbUpdateE id (fun b => { b with views := b.views + amt }) s with
  | mk r s2 =>
    rw [hu] at hfr
    cases r with
    | ok b => exact ⟨hfr.1, hfr.2.1, hfr.2.2.1, hfr.2.2.2.1⟩
    | error e => exact ⟨hfr.1, hfr.2.1, hfr.2.2.1, hfr.2.2.2.1⟩

/-! ## Characterization of `incrementViewsCore` -/

lemma incrementViewsCore_eq (bid : String) (s : St) :
    incrementViewsCore bid s =
      if s.cacheUp then
        match cacheFindE s.now (CacheKeys.views bid) s.cache with
        | none =>
          safeRedisDel [CacheKeys.blog bid]
            { s with cache := cacheInsert (CacheKeys.views bid) (CVal.vInt 1) none s.cache }
        | some (CVal.vInt n, e) =>
          if (n + 1) % 10 == 0 then
            match dbIncrViewsE bid 10
                { s with cache := cacheInsert (CacheKeys.views bid) (CVal.vInt (n + 1)) e s.cache } with
            | (Except.error _, s2) => s2
            | (Except.ok _, s2) => safeRedisDel [CacheKeys.blog bid] s2
          else
            safeRedisDel [CacheKeys.blog bid]
              { s with cache := cacheInsert (CacheKeys.views bid) (CVal.vInt (n + 1)) e s.cache }
        | some _ => s
      else s := by
  unfold incrementViewsCore redisIncrE
  by_cases h : s.cacheUp
  · rw [if_pos h, if_pos h]
    cases hf : cacheFindE s.now (CacheKeys.views bid) s.cache with
    | none =>
      show (if ((1 : Int) % 10 == 0) = true then _ else _) = _
      rw [if_neg (by decide)]
    | some p =>
      obtain ⟨v, e⟩ := p
      cases v <;> rfl
  · rw [if_neg h, if_neg h]

lemma incrementViewsCore_frame (bid : String) (s : St) :
    (incrementViewsCore bid s).now = s.now
      ∧ (incrementViewsCore bid s).cacheUp = s.cacheUp
      ∧ (incrementViewsCore bid s).dbReads = s.dbReads := by
  rw [incrementViewsCore_eq]
  by_cases h : s.cacheUp
  · rw [if_pos h]
    cases hf : cacheFindE s.now (CacheKeys.views bid) s.cache with
    | none =>
      have := safeRedisDel_frame [CacheKeys.blog bid]
        { s with cache := cacheInsert (CacheKeys.views bid) (CVal.vInt 1) none s.cache }
      exact ⟨this.2.1, this.2.2.1, this.2.2.2.1⟩
    | some p =>
      obtain ⟨v, e⟩ := p
      cases v with
      | vInt n =>
        dsimp only
        by_cases hv : (((n : Int) + 1) % 10 == 0) = true
        · rw [if_pos hv]
          have hfr := dbIncrViewsE_frame bid 10
            { s with cache := cacheInsert (CacheKeys.views bid) (CVal.vInt (n + 1)) e s.cache }
          cases hu : dbIncrViewsE bid 10
              { s with cache := cacheInsert (CacheKeys.views bid) (CVal.vInt (n + 1)) e s.cache } with
          | mk r s2 =>
            rw [hu] at hfr
            cases r with
            | error er => exact ⟨hfr.2.1, hfr.2.2.1, hfr.2.2.2⟩
            | ok u =>
              have hd := safeRedisDel_frame [CacheKeys.blog bid] s2
              exact ⟨hd.2.1.trans hfr.2.1, hd.2.2.1.trans hfr.2.2.1, hd.2.2.2.1.trans hfr.2.2.2⟩
        · rw [if_neg hv]
          have hd := safeRedisDel_frame [CacheKeys.blog bid]
            { s with cache := cacheInsert (CacheKeys.views bid) (CVal.vInt (n + 1)) e s.cache }
          exact ⟨hd.2.1, hd.2.2.1, hd.2.2.2.1⟩
      | vStr a => exact ⟨rfl, rfl, rfl⟩
      | vBlog a => exact ⟨rfl, rfl, rfl⟩
      | vBlogs a => exact ⟨rfl, rfl, rfl⟩
  · rw [if_neg h]; exact ⟨rfl, rfl, rfl⟩

lemma incrementViews_none (bid : String) (s : St) :
    incrementViews bid none s = incrementViewsCore bid s := rfl

lemma incrementViewsCore_cacheFindE (bid k : String) (s : St)
    (h1 : k ≠ CacheKeys.views bid) (h2 : k ≠ CacheKeys.blog bid) :
    cacheFindE s.now k (incrementViewsCore bid s).cache = cacheFindE s.now k s.cache := by
  have hmem : k ∉ [CacheKeys.blog bid] := by simp [h2]
  rw [incrementViewsCore_eq]
  by_cases h : s.cacheUp
  · rw [if_pos h]
    cases hf : cacheFindE s.now (CacheKeys.views bid) s.cache with
    | none =>
      rw [safeRedisDel_eq]
      dsimp only
      rw [if_pos h]
      dsimp only
      rw [cacheFindE_cacheEraseAll_not_mem _ _ _ _ hmem,
        cacheFindE_cacheInsert_ne _ _ _ _ _ _ h1]
    | some p =>
      obtain ⟨v, e⟩ := p
      cases v with
      | vInt n =>
        dsimp only
        by_cases hv : (((n : Int) + 1) % 10 == 0) = true
        · rw [if_pos hv]
          have hfr := dbIncrViewsE_frame bid 10
            { s with cache := cacheInsert (CacheKeys.views bid) (CVal.vInt (n + 1)) e s.cache }
          cases hu : dbIncrViewsE bid 10
              { s with cache := cacheInsert (CacheKeys.views bid) (CVal.vInt (n + 1)) e s.cache } with
          | mk r s2 =>
            rw [hu] at hfr
            have hc2 : s2.cache
                = cacheInsert (CacheKeys.views bid) (CVal.vInt (n + 1)) e s.cache := hfr.1
            have hup2 : s2.cacheUp = true := by
              rw [hfr.2.2.1]; exact h
            cases r with
            | error er =>
              dsimp only
              rw [hc2, cacheFindE_cacheInsert_ne _ _ _ _ _ _ h1]
            | ok u =>
              dsimp only
              rw [safeRedisDel_eq, if_pos hup2]
              dsimp only
              rw [hc2, cacheFindE_cacheEraseAll_not_mem _ _ _ _ hmem,
                cacheFindE_cacheInsert_ne _ _ _ _ _ _ h1]
        · rw [if_neg hv, safeRedisDel_eq]
          dsimp only
          rw [if_pos h]
          dsimp only
          rw [cacheFindE_cacheEraseAll_not_mem _ _ _ _ hmem,
            cacheFindE_cacheInsert_ne _ _ _ _ _ _ h1]
      | vStr a => rfl
      | vBlog a => rfl
      | vBlogs a => rfl
  · rw [if_neg h]

lemma int_mod10_iff (n : Nat) : ((((n : Int) + 1) % 10 == 0) = true) ↔ ((n + 1) % 10 = 0) := by
  rw [beq_iff_eq]
  omega

lemma incrementViewsCore_step (bid : String) (s : St) (n : Nat) (b : Blog)
    (hup : s.cacheUp = true)
    (hctr : cacheFindE s.now (CacheKeys.views bid) s.cache
          = if n = 0 then none else some (CVal.vInt (n : Int), none))
    (hdb : s.db.find? (fun x => x.id == bid) = some b) :
    (incrementViewsCore bid s).db.find? (fun x => x.id == bid)
        = some (if (n + 1) % 10 = 0 then { b with views := b.views + 10 } else b)
    ∧ cacheFindE s.now (CacheKeys.views bid) (incrementViewsCore bid s).cache
        = some (CVal.vInt ((n : Int) + 1), none)
    ∧ (incrementViewsCore bid s).viewFlushes
        = (if (n + 1) % 10 = 0 then [(bid, (10 : Int))] else []) ++ s.viewFlushes := by
  have hvmem : CacheKeys.views bid ∉ [CacheKeys.blog bid] := by
    simp [key_views_ne_blog bid]
  by_cases hn : n = 0
  · subst hn
    rw [if_pos rfl] at hctr
    rw [incrementViewsCore_eq, if_pos hup, hctr]
    rw [safeRedisDel_eq]
    dsimp only
    rw [if_pos hup]
    dsimp only
    have hm1 : (0 + 1) % 10 ≠ 0 := by decide
    refine ⟨?_, ?_, ?_⟩
    · rw [if_neg hm1]; exact hdb
    · rw [cacheFindE_cacheEraseAll_not_mem _ _ _ _ hvmem,
        cacheFindE_cacheInsert_self]
      simp [entryLive]
    · rw [if_neg hm1]; simp
  · rw [if_neg hn] at hctr
    rw [incrementViewsCore_eq, if_pos hup, hctr]
    dsimp only
    by_cases hv : (n + 1) % 10 = 0
    · rw [if_pos ((int_mod10_iff n).mpr hv)]
      unfold dbIncrViewsE dbUpdateE
      dsimp only
      rw [hdb]
      dsimp only
      rw [safeRedisDel_eq]
      dsimp only
      rw [if_pos hup]
      dsimp only
      refine ⟨?_, ?_, ?_⟩
      · rw [if_pos hv]
        rw [find?_id_dbUpdateFirst bid (fun x => { x with views := x.views + 10 }) s.db
          (fun x => rfl), hdb]
        rfl
      · rw [cacheFindE_cacheEraseAll_not_mem _ _ _ _ hvmem,
          cacheFindE_cacheInsert_self]
        simp [entryLive]
      · rw [if_pos hv]
        rfl
    · rw [if_neg (by rw [int_mod10_iff n]; exact hv)]
      rw [safeRedisDel_eq]
      dsimp only
      rw [if_pos hup]
      dsimp only
      refine ⟨?_, ?_, ?_⟩
      · rw [if_neg hv]; exact hdb
      · rw [cacheFindE_cacheEraseAll_not_mem _ _ _ _ hvmem,
          cacheFindE_cacheInsert_self]
        simp [entryLive]
      · rw [if_neg hv]; simp

/-! ## More cache-step preservation lemmas -/

lemma safeRedisGet_eq_up (k : String) (s : St) (h : s.cacheUp = true) :
    safeRedisGet k s = ((cacheFindE s.now k s.cache).map (fun p => p.1), s) := by
  unfold safeRedisGet redisGetE
  rw [if_pos h]

lemma safeRedisGet_eq_down (k : String) (s : St) (h : s.cacheUp = false) :
    safeRedisGet k s = (none, s) := by
  unfold safeRedisGet redisGetE
  rw [h]
  rfl

lemma redisIncrSwallow_cacheFindE (key k : String) (s : St) (h : k ≠ key) :
    cacheFindE s.now k (redisIncrSwallow key s).cache = cacheFindE s.now k s.cache := by
  rw [redisIncrSwallow_eq]
  by_cases hup : s.cacheUp
  · rw [if_pos hup]
    cases hf : cacheFindE s.now key s.cache with
    | none => exact cacheFindE_cacheInsert_ne _ _ _ _ _ _ h
    | some p =>
      obtain ⟨v, e⟩ := p
      cases v with
      | vInt n => exact cacheFindE_cacheInsert_ne _ _ _ _ _ _ h
      | vStr a => rfl
      | vBlog a => rfl
      | vBlogs a => rfl
  · rw [if_neg hup]

lemma redisDecrSwallow_cacheFindE (key k : String) (s : St) (h : k ≠ key) :
    cacheFindE s.now k (redisDecrSwallow key s).cache = cacheFindE s.now k s.cache := by
  rw [redisDecrSwallow_eq]
  by_cases hup : s.cacheUp
  · rw [if_pos hup]
    cases hf : cacheFindE s.now key s.cache with
    | none => exact cacheFindE_cacheInsert_ne _ _ _ _ _ _ h
    | some p =>
      obtain ⟨v, e⟩ := p
      cases v with
      | vInt n => exact cacheFindE_cacheInsert_ne _ _ _ _ _ _ h
      | vStr a => rfl
      | vBlog a => rfl
      | vBlogs a => rfl
  · rw [if_neg hup]

lemma cacheFindE_some_any_time (now now' : Nat) (k : String) (c : Cache) (v : CVal) (t : Nat)
    (h : cacheFindE now k c = some (v, some t)) (h2 : now' < t) :
    cacheFindE now' k c = some (v, some t) := by
  induction c with
  | nil => simp [cacheFindE] at h
  | cons e rest ih =>
    obtain ⟨ke, ve, xe⟩ := e
    by_cases hk : ke = k
    · rw [cacheFindE, if_pos hk] at h ⊢
      by_cases hl : entryLive now xe = true
      · rw [if_pos hl] at h
        injection h with h
        rw [Prod.mk.injEq] at h
        obtain ⟨rfl, rfl⟩ := h
        rw [if_pos (by simp [entryLive, h2])]
      · rw [if_neg hl] at h
        exact absurd h (by simp)
    · rw [cacheFindE, if_neg hk] at h ⊢
      exact ih h

/-! ## Success-state characterizations of the mutating services -/

lemma likeBlog_success_eq (s : St) (blogId userId : String) (b : Blog)
    (hup : s.cacheUp = true)
    (hmark : cacheFindE s.now (CacheKeys.userLike userId blogId) s.cache = none)
    (hdb : s.db.find? (fun x => x.id == blogId) = some b) :
    likeBlog blogId userId s
      = (Except.ok "Blog liked successfully",
          invalidateBlogCache blogId none
            { redisIncrSwallow (CacheKeys.likes blogId)
                (safeRedisSet (CacheKeys.userLike userId blogId) CacheTTL.userLike
                  (CVal.vStr "1") s) with
                db := dbUpdateFirst blogId (fun x => { x with likes := x.likes + 1 }) s.db }) := by
  unfold likeBlog
  dsimp only
  rw [safeRedisGet_eq_up _ _ hup, hmark]
  dsimp only [Option.map_none']
  have hdb3 : (redisIncrSwallow (CacheKeys.likes blogId)
      (safeRedisSet (CacheKeys.userLike userId blogId) CacheTTL.userLike
        (CVal.vStr "1") s)).db = s.db := by
    rw [(redisIncrSwallow_frame _ _).1, (safeRedisSet_frame _ _ _ _).1]
  unfold dbUpdateE
  rw [hdb3, hdb]

lemma unlikeBlog_success_eq (s : St) (blogId userId : String) (b : Blog)
    (p : CVal × Option Nat)
    (hup : s.cacheUp = true)
    (hmark : cacheFindE s.now (CacheKeys.userLike userId blogId) s.cache = some p)
    (hdb : s.db.find? (fun x => x.id == blogId) = some b) :
    unlikeBlog blogId userId s
      = (Except.ok "Blog unliked successfully",
          invalidateBlogCache blogId none
            { redisDecrSwallow (CacheKeys.likes blogId)
                (safeRedisDel [CacheKeys.userLike userId blogId] s) with
                db := dbUpdateFirst blogId (fun x => { x with likes := x.likes - 1 }) s.db }) := by
  unfold unlikeBlog
  dsimp only
  rw [safeRedisGet_eq_up _ _ hup, hmark]
  dsimp only [Option.map_some']
  have hdb3 : (redisDecrSwallow (CacheKeys.likes blogId)
      (safeRedisDel [CacheKeys.userLike userId blogId] s)).db = s.db := by
    rw [(redisDecrSwallow_frame _ _).1, (safeRedisDel_frame _ _).1]
  unfold dbUpdateE
  rw [hdb3, hdb]

lemma softDeleteIntoDb_success_eq (s : St) (id : String) (blog : Blog)
    (hdb : s.db.find? (fun x => x.id == id) = some blog)
    (hnd : blog.isDeleted = false) :
    softDeleteIntoDb id s
      = (Except.ok "Blog soft deleted successfully",
          invalidateBlogCache id (some blog.slug)
            { s with
                db := dbUpdateFirst id (fun x => { x with isDeleted := true }) s.db,
                dbReads := s.dbReads + 1 }) := by
  unfold softDeleteIntoDb dbFindById
  dsimp only
  rw [hdb]
  dsimp only
  rw [if_neg (by rw [hnd]; exact Bool.false_ne_true)]
  unfold dbUpdateE
  dsimp only
  rw [hdb]

lemma deleteIntoDb_success_eq (s : St) (id : String) (blog : Blog)
    (hdb : s.db.find? (fun x => x.id == id) = some blog) :
    deleteIntoDb id s
      = (Except.ok "Blog deleted successfully",
          invalidateBlogCache id (some blog.slug)
            { s with
                db := s.db.filter (fun x => decide (x.id ≠ id)),
                dbReads := s.dbReads + 1 }) := by
  unfold deleteIntoDb dbFindById
  dsimp only
  rw [hdb]
  dsimp only
  unfold dbDeleteE
  dsimp only
  rw [hdb]

lemma getBlog_byId_notFound (s : St) (id : String)
    (hup : s.cacheUp = true)
    (hmiss : cacheFindE s.now (CacheKeys.blog id) s.cache = none)
    (hnf : ∀ b, s.db.find? (fun x => x.id == id) = some b → b.isDeleted = true) :
    (getBlogByIdFromDB id s).1 = Except.error Err.notFound := by
  unfold getBlogByIdFromDB getBlog
  dsimp only
  rw [safeRedisGet_eq_up _ _ hup, hmiss]
  dsimp only [Option.map_none']
  unfold dbFindById
  dsimp only
  cases hf : s.db.find? (fun x => x.id == id) with
  | none => rfl
  | some b =>
    dsimp only
    rw [if_pos (by rw [hnf b hf])]

lemma getBlog_bySlug_notFound (s : St) (slug : String)
    (hup : s.cacheUp = true)
    (hmiss : cacheFindE s.now (CacheKeys.blogSlug slug) s.cache = none)
    (hnf : ∀ b, s.db.find? (fun x => x.slug == slug) = some b → b.isDeleted = true) :
    (getBlogBySlug slug s).1 = Except.error Err.notFound := by
  unfold getBlogBySlug getBlog
  dsimp only
  rw [safeRedisGet_eq_up _ _ hup, hmiss]
  dsimp only [Option.map_none']
  unfold dbFindBySlug
  dsimp only
  cases hf : s.db.find? (fun x => x.slug == slug) with
  | none => rfl
  | some b =>
    dsimp only
    rw [if_pos (by rw [hnf b hf])]

/-! ## The view-counter iteration invariant -/

lemma iterateViews_invariant (bid : String) (s : St) (b : Blog) (n : Nat)
    (hup : s.cacheUp = true)
    (hctr : cacheFindE s.now (CacheKeys.views bid) s.cache = none)
    (hdb : s.db.find? (fun x => x.id == bid) = some b) :
    (iterateViews bid n s).now = s.now
    ∧ (iterateViews bid n s).cacheUp = true
    ∧ (iterateViews bid n s).dbReads = s.dbReads
    ∧ (iterateViews bid n s).viewFlushes
        = List.replicate (n / 10) (bid, (10 : Int)) ++ s.viewFlushes
    ∧ (iterateViews bid n s).db.find? (fun x => x.id == bid)
        = some { b with views := b.views + 10 * ((n / 10 : Nat) : Int) }
    ∧ cacheFindE s.now (CacheKeys.views bid) (iterateViews bid n s).cache
        = (if n = 0 then none else some (CVal.vInt (n : Int), none)) := by
  induction n with
  | zero =>
    have h0 : iterateViews bid 0 s = s := rfl
    rw [h0]
    refine ⟨rfl, hup, rfl, by simp, ?_, by rw [if_pos rfl]; exact hctr⟩
    rw [hdb]
    norm_num
  | succ m ih =>
    obtain ⟨hnow, hcu, hdr, hfl, hdbm, hctrm⟩ := ih
    have hctrm' : cacheFindE (iterateViews bid m s).now (CacheKeys.views bid)
        (iterateViews bid m s).cache
        = (if m = 0 then none else some (CVal.vInt (m : Int), none)) := by
      rw [hnow]; exact hctrm
    have hstep := incrementViewsCore_step bid (iterateViews bid m s) m
      { b with views := b.views + 10 * ((m / 10 : Nat) : Int) } hcu hctrm' hdbm
    have hframe := incrementViewsCore_frame bid (iterateViews bid m s)
    have hiter : iterateViews bid (m + 1) s
        = incrementViewsCore bid (iterateViews bid m s) := rfl
    rw [hiter]
    refine ⟨?_, ?_, ?_, ?_, ?_, ?_⟩
    · rw [hframe.1, hnow]
    · rw [hframe.2.1, hcu]
    · rw [hframe.2.2.trans hdr]
    · rw [hstep.2.2, hfl]
      by_cases hv : (m + 1) % 10 = 0
      · rw [if_pos hv]
        have hq : (m + 1) / 10 = m / 10 + 1 := by omega
        rw [hq, List.replicate_succ]
        simp
      · rw [if_neg hv]
        have hq : (m + 1) / 10 = m / 10 := by omega
        rw [hq]
        simp
    · rw [hstep.1]
      by_cases hv : (m + 1) % 10 = 0
      · rw [if_pos hv]
        have hq : ((m + 1) / 10 : Nat) = (m / 10 : Nat) + 1 := by omega
        rw [hq]
        congr 1
        dsimp only
        congr 1
        push_cast
        ring
      · rw [if_neg hv]
        have hq : ((m + 1) / 10 : Nat) = (m / 10 : Nat) := by omega
        rw [hq]
    · have h2 := hstep.2.1
      rw [hnow] at h2
      rw [if_neg (Nat.succ_ne_zero m)]
      have hc : ((m + 1 : Nat) : Int) = (m : Int) + 1 := by push_cast; ring
      rw [hc]
      exact h2

lemma tick_now (d : Nat) (s : St) : (tick d s).now = s.now + d := rfl

lemma tick_cache (d : Nat) (s : St) : (tick d s).cache = s.cache := rfl

lemma tick_cacheUp (d : Nat) (s : St) : (tick d s).cacheUp = s.cacheUp := rfl

lemma tick_db (d : Nat) (s : St) : (tick d s).db = s.db := rfl

lemma tick_dbReads (d : Nat) (s : St) : (tick d s).dbReads = s.dbReads := rfl

/-! ## Claims -/

/-- C1 (counterexample): the claim fails for reads by identifier.  After a
miss-triggered `getBlogByIdFromDB` of post p1 the primary snapshot is NOT in
the cache — the view increment running inside the read deletes the key it
just populated — and a second read immediately afterwards queries the
durable store again (`dbReads` grows by one more). -/
theorem C1_counterexample :
    (getBlogByIdFromDB "p1" testSt).1 = Except.ok testBlog
    ∧ cacheFindE (getBlogByIdFromDB "p1" testSt).2.now (CacheKeys.blog "p1")
        (getBlogByIdFromDB "p1" testSt).2.cache = none
    ∧ (getBlogByIdFromDB "p1" (getBlogByIdFromDB "p1" testSt).2).2.dbReads
        = (getBlogByIdFromDB "p1" testSt).2.dbReads + 1 := by decide

/-- C1 (amended): the cache-population property holds for reads by slug.
After a miss-triggered `getBlogBySlug` of a present, non-deleted post, the
slug snapshot written on the miss is still in the cache at any instant
within the one-hour TTL window (the view increment deletes only the id
key), and a second `getBlogBySlug` at that instant performs no
durable-store read and succeeds. -/
theorem C1_amended_slug_cached (s : St) (slug : String) (b : Blog) (d : Nat)
    (hup : s.cacheUp = true)
    (hmiss : cacheFindE s.now (CacheKeys.blogSlug slug) s.cache = none)
    (hdb : s.db.find? (fun x => x.slug == slug) = some b)
    (hdel : b.isDeleted = false)
    (hkey : CacheKeys.blogSlug slug ≠ CacheKeys.blog b.id)
    (hd : d < CacheTTL.blog) :
    cacheFindE (tick d (getBlogBySlug slug s).2).now (CacheKeys.blogSlug slug)
        (tick d (getBlogBySlug slug s).2).cache
      = some (CVal.vBlog b, some (s.now + CacheTTL.blog))
    ∧ (getBlogBySlug slug (tick d (getBlogBySlug slug s).2)).2.dbReads
      = (tick d (getBlogBySlug slug s).2).dbReads
    ∧ (∃ res, (getBlogBySlug slug (tick d (getBlogBySlug slug s).2)).1
        = Except.ok res) := by
  have hfirst : (getBlogBySlug slug s).2
      = incrementViewsCore b.id
          { s with
              dbReads := s.dbReads + 1
              cache := cacheInsert (CacheKeys.blogSlug slug) (CVal.vBlog b)
                (some (s.now + CacheTTL.blog)) s.cache } := by
    unfold getBlogBySlug getBlog
    dsimp only
    rw [safeRedisGet_eq_up _ _ hup, hmiss]
    dsimp only [Option.map_none']
    unfold dbFindBySlug
    dsimp only
    rw [hdb]
    dsimp only
    rw [if_neg (by rw [hdel]; exact Bool.false_ne_true), safeRedisSet_eq]
    dsimp only
    rw [if_pos hup]
    rfl
  rw [hfirst]
  set B : St := { s with
      dbReads := s.dbReads + 1
      cache := cacheInsert (CacheKeys.blogSlug slug) (CVal.vBlog b)
        (some (s.now + CacheTTL.blog)) s.cache } with hB
  have hcore := incrementViewsCore_frame b.id B
  have hBnow : B.now = s.now := rfl
  have hBup : B.cacheUp = true := hup
  have hpres := incrementViewsCore_cacheFindE b.id (CacheKeys.blogSlug slug) B
    (key_slug_ne_views slug b.id) hkey
  rw [hBnow] at hpres
  have hBcache : cacheFindE s.now (CacheKeys.blogSlug slug) B.cache
      = some (CVal.vBlog b, some (s.now + CacheTTL.blog)) := by
    rw [hB]
    dsimp only
    rw [cacheFindE_cacheInsert_self, if_pos (by unfold entryLive CacheTTL.blog; simp)]
  rw [hBcache] at hpres
  have h2nd := cacheFindE_some_any_time s.now (s.now + d) (CacheKeys.blogSlug slug)
    (incrementViewsCore b.id B).cache (CVal.vBlog b) (s.now + CacheTTL.blog) hpres
    (by omega)
  have hup2 : (tick d (incrementViewsCore b.id B)).cacheUp = true := by
    rw [tick_cacheUp, hcore.2.1, hBup]
  have hlook : cacheFindE (tick d (incrementViewsCore b.id B)).now
      (CacheKeys.blogSlug slug) (tick d (incrementViewsCore b.id B)).cache
      = some (CVal.vBlog b, some (s.now + CacheTTL.blog)) := by
    rw [tick_now, tick_cache, hcore.1, hBnow]
    exact h2nd
  have hsecond : ∃ res, getBlogBySlug slug (tick d (incrementViewsCore b.id B))
      = (Except.ok res,
         incrementViewsCore b.id (tick d (incrementViewsCore b.id B))) := by
    exact ⟨_, by
      unfold getBlogBySlug getBlog
      dsimp only
      rw [safeRedisGet_eq_up _ _ hup2, hlook]
      dsimp only [Option.map_some']
      rw [incrementViews_none, safeRedisGet_snd]⟩
  obtain ⟨res, hsecond⟩ := hsecond
  refine ⟨?_, ?_, ?_⟩
  · rw [tick_now, tick_cache, hcore.1, hBnow]
    exact h2nd
  · rw [hsecond]
    exact (incrementViewsCore_frame b.id _).2.2
  · exact ⟨res, by rw [hsecond]⟩

/-- C1 (amended, witness): the amended statement at a concrete state — one
post with slug s1, empty cache, second read 100 seconds later. -/
theorem C1_amended_witness :
    cacheFindE (tick 100 (getBlogBySlug "s1" testSt).2).now (CacheKeys.blogSlug "s1")
        (tick 100 (getBlogBySlug "s1" testSt).2).cache
      = some (CVal.vBlog testBlog, some (testSt.now + CacheTTL.blog))
    ∧ (getBlogBySlug "s1" (tick 100 (getBlogBySlug "s1" testSt).2)).2.dbReads
      = (tick 100 (getBlogBySlug "s1" testSt).2).dbReads
    ∧ (∃ res, (getBlogBySlug "s1" (tick 100 (getBlogBySlug "s1" testSt).2)).1
        = Except.ok res) :=
  C1_amended_slug_cached testSt "s1" testBlog 100 (by decide) (by decide) (by decide)
    (by decide) (by decide) (by decide)

/-- C2 (counterexample): the claim's invariant fails.  Starting from a post
with 0 persisted views and no counter, 19 sequential `incrementViews` calls
issue exactly one durable increment of 10 (that part holds), but the Redis
counter is never reset at the flush, so it reads 19 while the persisted
count is 10: persisted + counter = 29 ≠ 0 + 19. -/
theorem C2_counterexample :
    (iterateViews "p1" 19 testSt).db.find? (fun x => x.id == "p1")
        = some { testBlog with views := 10 }
    ∧ cacheFindE (iterateViews "p1" 19 testSt).now (CacheKeys.views "p1")
        (iterateViews "p1" 19 testSt).cache = some (CVal.vInt 19, none)
    ∧ (iterateViews "p1" 19 testSt).viewFlushes = [("p1", (10 : Int))]
    ∧ ¬ ((10 : Int) + 19 = testBlog.views + 19) := by decide

/-- C2 (amended): for a post with persisted view count v0 and no counter
key, after n sequential `incrementViews` calls exactly ⌊n/10⌋ durable
increments of amount 10 each have been issued (one at each call whose
counter value is a multiple of 10), the persisted count is v0 + 10·⌊n/10⌋,
and the Redis counter holds n — it is not reset at a flush — so the true
count v0 + n equals persisted + (counter mod 10), not persisted + counter. -/
theorem C2_amended (s : St) (bid : String) (b : Blog) (n : Nat)
    (hup : s.cacheUp = true)
    (hctr : cacheFindE s.now (CacheKeys.views bid) s.cache = none)
    (hdb : s.db.find? (fun x => x.id == bid) = some b) :
    (iterateViews bid n s).viewFlushes
        = List.replicate (n / 10) (bid, (10 : Int)) ++ s.viewFlushes
    ∧ (iterateViews bid n s).db.find? (fun x => x.id == bid)
        = some { b with views := b.views + 10 * ((n / 10 : Nat) : Int) }
    ∧ cacheFindE (iterateViews bid n s).now (CacheKeys.views bid)
        (iterateViews bid n s).cache
        = (if n = 0 then none else some (CVal.vInt (n : Int), none))
    ∧ (b.views + 10 * ((n / 10 : Nat) : Int)) + ((n % 10 : Nat) : Int)
        = b.views + (n : Int) := by
  obtain ⟨hnow, _, _, hfl, hdbn, hctrn⟩ := iterateViews_invariant bid s b n hup hctr hdb
  refine ⟨hfl, hdbn, ?_, by omega⟩
  rw [hnow]
  exact hctrn

/-- C2 (amended, witness): the amended statement at the concrete 19-call
run of the spec's test property. -/
theorem C2_amended_witness :
    (iterateViews "p1" 19 testSt).viewFlushes
        = List.replicate (19 / 10) ("p1", (10 : Int)) ++ testSt.viewFlushes
    ∧ (iterateViews "p1" 19 testSt).db.find? (fun x => x.id == "p1")
        = some { testBlog with views := testBlog.views + 10 * ((19 / 10 : Nat) : Int) }
    ∧ cacheFindE (iterateViews "p1" 19 testSt).now (CacheKeys.views "p1")
        (iterateViews "p1" 19 testSt).cache
        = (if 19 = 0 then none else some (CVal.vInt (19 : Int), none))
    ∧ (testBlog.views + 10 * ((19 / 10 : Nat) : Int)) + ((19 % 10 : Nat) : Int)
        = testBlog.views + (19 : Int) :=
  C2_amended testSt "p1" testBlog 19 (by decide) (by decide) (by decide)

/-- C3 (counterexample): the claim fails for `likeBlog`.  With the post's
slug snapshot cached, a successful like leaves the slug cache entry in
place: `likeBlog` calls `invalidateBlogCache(blogId)` without the slug, so
the slug key is not deleted. -/
theorem C3_counterexample :
    (likeBlog "p1" "u1" testStSlugCached).1 = Except.ok "Blog liked successfully"
    ∧ cacheFindE (likeBlog "p1" "u1" testStSlugCached).2.now (CacheKeys.blogSlug "s1")
        (likeBlog "p1" "u1" testStSlugCached).2.cache
        = some (CVal.vBlog testBlog, some 1000) := by decide

/-- C3 (amended): invalidation completeness holds in the following form.
For hard delete and soft delete, the primary key, the slug key, the
trending key, and every listing key are absent afterwards.  For like and
unlike, the primary key, the trending key, and every listing key are
absent, but the slug key is not invalidated.  For a successful update —
whether the patch leaves the slug alone, restates it, or changes it — the
trending key, the old slug key, and every listing key are absent, while
the primary key is immediately repopulated with the fresh updated
snapshot rather than left absent. -/
theorem C3_amended (s : St) (hup : s.cacheUp = true) :
    (∀ id blog, s.db.find? (fun x => x.id == id) = some blog → blog.isDeleted = false →
      ∀ k, (k = CacheKeys.blog id ∨ k = CacheKeys.trending ∨ k = CacheKeys.blogSlug blog.slug
          ∨ strStartsWith "blogs:all:" k = true ∨ strStartsWith "blogs:user:" k = true) →
        cacheFindE (softDeleteIntoDb id s).2.now k (softDeleteIntoDb id s).2.cache = none)
    ∧ (∀ id blog, s.db.find? (fun x => x.id == id) = some blog →
      ∀ k, (k = CacheKeys.blog id ∨ k = CacheKeys.trending ∨ k = CacheKeys.blogSlug blog.slug
          ∨ strStartsWith "blogs:all:" k = true ∨ strStartsWith "blogs:user:" k = true) →
        cacheFindE (deleteIntoDb id s).2.now k (deleteIntoDb id s).2.cache = none)
    ∧ (∀ blogId userId b, s.db.find? (fun x => x.id == blogId) = some b →
        cacheFindE s.now (CacheKeys.userLike userId blogId) s.cache = none →
      ∀ k, (k = CacheKeys.blog blogId ∨ k = CacheKeys.trending
          ∨ strStartsWith "blogs:all:" k = true ∨ strStartsWith "blogs:user:" k = true) →
        cacheFindE (likeBlog blogId userId s).2.now k (likeBlog blogId userId s).2.cache = none)
    ∧ (∀ blogId userId b p, s.db.find? (fun x => x.id == blogId) = some b →
        cacheFindE s.now (CacheKeys.userLike userId blogId) s.cache = some p →
      ∀ k, (k = CacheKeys.blog blogId ∨ k = CacheKeys.trending
          ∨ strStartsWith "blogs:all:" k = true ∨ strStartsWith "blogs:user:" k = true) →
        cacheFindE (unlikeBlog blogId userId s).2.now k (unlikeBlog blogId userId s).2.cache
          = none)
    ∧ (∀ id patch existing, s.db.find? (fun x => x.id == id) = some existing →
        existing.isDeleted = false →
        (∀ sl, patchSlugTruthy patch = some sl → sl ≠ existing.slug →
          s.db.find? (fun x => x.slug == sl) = none) →
        CacheKeys.blog id ≠ CacheKeys.blogSlug existing.slug →
        CacheKeys.blog id ≠ CacheKeys.blogSlug (applyPatch patch existing).slug →
        (∀ k, (k = CacheKeys.trending ∨ k = CacheKeys.blogSlug existing.slug
            ∨ strStartsWith "blogs:all:" k = true ∨ strStartsWith "blogs:user:" k = true) →
          cacheFindE (updateIntoDb id patch s).2.now k (updateIntoDb id patch s).2.cache = none)
        ∧ cacheFindE (updateIntoDb id patch s).2.now (CacheKeys.blog id)
            (updateIntoDb id patch s).2.cache
          = some (CVal.vBlog (applyPatch patch existing), some (s.now + CacheTTL.blog))) := by
  refine ⟨?_, ?_, ?_, ?_, ?_⟩
  · intro id blog hdb hnd k hk
    rw [softDeleteIntoDb_success_eq s id blog hdb hnd]
    dsimp only
    apply invalidateBlogCache_absent
    · exact hup
    rcases hk with rfl | rfl | rfl | hp | hp
    · exact Or.inl rfl
    · exact Or.inr (Or.inl rfl)
    · exact Or.inr (Or.inr (Or.inl ⟨blog.slug, rfl, rfl⟩))
    · exact Or.inr (Or.inr (Or.inr (Or.inl hp)))
    · exact Or.inr (Or.inr (Or.inr (Or.inr hp)))
  · intro id blog hdb k hk
    rw [deleteIntoDb_success_eq s id blog hdb]
    dsimp only
    apply invalidateBlogCache_absent
    · exact hup
    rcases hk with rfl | rfl | rfl | hp | hp
    · exact Or.inl rfl
    · exact Or.inr (Or.inl rfl)
    · exact Or.inr (Or.inr (Or.inl ⟨blog.slug, rfl, rfl⟩))
    · exact Or.inr (Or.inr (Or.inr (Or.inl hp)))
    · exact Or.inr (Or.inr (Or.inr (Or.inr hp)))
  · intro blogId userId b hdb hmark k hk
    rw [likeBlog_success_eq s blogId userId b hup hmark hdb]
    dsimp only
    apply invalidateBlogCache_absent
    · dsimp only
      rw [(redisIncrSwallow_frame _ _).2.2.1, (safeRedisSet_frame _ _ _ _).2.2.1]
      exact hup
    rcases hk with rfl | rfl | hp | hp
    · exact Or.inl rfl
    · exact Or.inr (Or.inl rfl)
    · exact Or.inr (Or.inr (Or.inr (Or.inl hp)))
    · exact Or.inr (Or.inr (Or.inr (Or.inr hp)))
  · intro blogId userId b p hdb hmark k hk
    rw [unlikeBlog_success_eq s blogId userId b p hup hmark hdb]
    dsimp only
    apply invalidateBlogCache_absent
    · dsimp only
      rw [(redisDecrSwallow_frame _ _).2.2.1, (safeRedisDel_frame _ _).2.2.1]
      exact hup
    rcases hk with rfl | rfl | hp | hp
    · exact Or.inl rfl
    · exact Or.inr (Or.inl rfl)
    · exact Or.inr (Or.inr (Or.inr (Or.inl hp)))
    · exact Or.inr (Or.inr (Or.inr (Or.inr hp)))
  · intro id patch existing hdb hnd hconfl hk1 hk2
    obtain ⟨m, hupd⟩ : ∃ m : Nat, updateIntoDb id patch s
        = (Except.ok (applyPatch patch existing),
           if (applyPatch patch existing).slug ≠ existing.slug then
             safeRedisSet (CacheKeys.blogSlug (applyPatch patch existing).slug) CacheTTL.blog
               (CVal.vBlog (applyPatch patch existing))
               (safeRedisSet (CacheKeys.blog id) CacheTTL.blog
                 (CVal.vBlog (applyPatch patch existing))
                 (invalidateBlogCache id (some existing.slug)
                   { s with
                       db := dbUpdateFirst id (applyPatch patch) s.db
                       dbReads := m }))
           else
             safeRedisSet (CacheKeys.blog id) CacheTTL.blog
               (CVal.vBlog (applyPatch patch existing))
               (invalidateBlogCache id (some existing.slug)
                 { s with
                     db := dbUpdateFirst id (applyPatch patch) s.db
                     dbReads := m })) := by
      cases hpt : patchSlugTruthy patch with
      | none =>
        refine ⟨s.dbReads + 1, ?_⟩
        unfold updateIntoDb dbFindById
        dsimp only
        rw [hdb]
        dsimp only
        rw [if_neg (by rw [hnd]; exact Bool.false_ne_true)]
        rw [hpt]
        dsimp only
        rw [if_neg (by exact Bool.false_ne_true)]
        unfold dbUpdateE
        dsimp only
        rw [hdb]
      | some sl =>
        by_cases hse : sl = existing.slug
        · refine ⟨s.dbReads + 1, ?_⟩
          unfold updateIntoDb dbFindById
          dsimp only
          rw [hdb]
          dsimp only
          rw [if_neg (by rw [hnd]; exact Bool.false_ne_true)]
          rw [hpt]
          dsimp only
          rw [if_neg (not_not_intro hse)]
          dsimp only
          rw [if_neg (by exact Bool.false_ne_true)]
          unfold dbUpdateE
          dsimp only
          rw [hdb]
        · refine ⟨s.dbReads + 1 + 1, ?_⟩
          unfold updateIntoDb dbFindById
          dsimp only
          rw [hdb]
          dsimp only
          rw [if_neg (by rw [hnd]; exact Bool.false_ne_true)]
          rw [hpt]
          dsimp only
          rw [if_pos hse]
          unfold dbFindBySlug
          dsimp only
          rw [hconfl sl hpt hse]
          rw [if_neg (by simp)]
          unfold dbUpdateE
          dsimp only
          rw [hdb]
    rw [hupd]
    dsimp only
    set sA := invalidateBlogCache id (some existing.slug)
      { s with
          db := dbUpdateFirst id (applyPatch patch) s.db
          dbReads := m } with hsA
    set sB := safeRedisSet (CacheKeys.blog id) CacheTTL.blog
      (CVal.vBlog (applyPatch patch existing)) sA with hsB
    have hupA : sA.cacheUp = true := by
      rw [hsA, (invalidateBlogCache_frame _ _ _).2.2.1]
      exact hup
    have hnowA : sA.now = s.now := by
      rw [hsA, (invalidateBlogCache_frame _ _ _).2.1]
    have hupB : sB.cacheUp = true := by
      rw [hsB, (safeRedisSet_frame _ _ _ _).2.2.1]
      exact hupA
    have habsent : ∀ k, (k = CacheKeys.trending ∨ k = CacheKeys.blogSlug existing.slug
        ∨ strStartsWith "blogs:all:" k = true ∨ strStartsWith "blogs:user:" k = true) →
        cacheFindE sB.now k sB.cache = none := by
      intro k hk
      have hkne : k ≠ CacheKeys.blog id := by
        rcases hk with rfl | rfl | hp | hp
        · exact key_trending_ne_blog id
        · intro h; exact hk1 h.symm
        · intro h; rw [h, not_sw_all_blog id] at hp; exact Bool.false_ne_true hp
        · intro h; rw [h, not_sw_user_blog id] at hp; exact Bool.false_ne_true hp
      rw [hsB, safeRedisSet_eq, if_pos hupA]
      dsimp only
      rw [cacheFindE_cacheInsert_ne _ _ _ _ _ _ hkne, hsA]
      apply invalidateBlogCache_absent
      · exact hup
      rcases hk with rfl | rfl | hp | hp
      · exact Or.inr (Or.inl rfl)
      · exact Or.inr (Or.inr (Or.inl ⟨existing.slug, rfl, rfl⟩))
      · exact Or.inr (Or.inr (Or.inr (Or.inl hp)))
      · exact Or.inr (Or.inr (Or.inr (Or.inr hp)))
    have hpresent : cacheFindE sB.now (CacheKeys.blog id) sB.cache
        = some (CVal.vBlog (applyPatch patch existing), some (s.now + CacheTTL.blog)) := by
      rw [hsB, safeRedisSet_eq, if_pos hupA]
      dsimp only
      rw [cacheFindE_cacheInsert_self, hnowA]
      rw [if_pos (by unfold entryLive CacheTTL.blog; simp)]
    constructor
    · intro k hk
      by_cases hch : (applyPatch patch existing).slug ≠ existing.slug
      · rw [if_pos hch]
        have hkne1 : k ≠ CacheKeys.blogSlug (applyPatch patch existing).slug := by
          rcases hk with rfl | rfl | hp | hp
          · exact key_trending_ne_blogSlug _
          · intro h; exact hch ((key_blogSlug_inj h).symm)
          · intro h; rw [h, not_sw_all_blogSlug] at hp; exact Bool.false_ne_true hp
          · intro h; rw [h, not_sw_user_blogSlug] at hp; exact Bool.false_ne_true hp
        rw [safeRedisSet_eq, if_pos hupB]
        dsimp only
        rw [cacheFindE_cacheInsert_ne _ _ _ _ _ _ hkne1]
        exact habsent k hk
      · rw [if_neg hch]
        exact habsent k hk
    · by_cases hch : (applyPatch patch existing).slug ≠ existing.slug
      · rw [if_pos hch]
        rw [safeRedisSet_eq, if_pos hupB]
        dsimp only
        rw [cacheFindE_cacheInsert_ne _ _ _ _ _ _ hk2]
        exact hpresent
      · rw [if_neg hch]
        exact hpresent

/-- C3 (amended, witness): instances of the amended statement at a
concrete state — after a soft delete the slug key is absent, after a like
the primary key is absent, and after a slug-changing update the old slug
key is absent while the primary key holds the fresh snapshot. -/
theorem C3_amended_witness :
    cacheFindE (softDeleteIntoDb "p1" testSt).2.now (CacheKeys.blogSlug "s1")
        (softDeleteIntoDb "p1" testSt).2.cache = none
    ∧ cacheFindE (likeBlog "p1" "u1" testSt).2.now (CacheKeys.blog "p1")
        (likeBlog "p1" "u1" testSt).2.cache = none
    ∧ cacheFindE (updateIntoDb "p1" testPatch testSt).2.now (CacheKeys.blogSlug "s1")
        (updateIntoDb "p1" testPatch testSt).2.cache = none
    ∧ cacheFindE (updateIntoDb "p1" testPatch testSt).2.now (CacheKeys.blog "p1")
        (updateIntoDb "p1" testPatch testSt).2.cache
      = some (CVal.vBlog (applyPatch testPatch testBlog), some (testSt.now + CacheTTL.blog)) := by
  have hu := (C3_amended testSt (by decide)).2.2.2.2 "p1" testPatch testBlog (by decide)
    (by decide)
    (by
      intro sl h1 h2
      have h3 : patchSlugTruthy testPatch = some "s2" := by decide
      rw [h3] at h1
      rw [(Option.some.inj h1).symm]
      decide)
    (by decide) (by decide)
  exact ⟨(C3_amended testSt (by decide)).1 "p1" testBlog (by decide) (by decide)
      (CacheKeys.blogSlug "s1") (Or.inr (Or.inr (Or.inl rfl))),
    (C3_amended testSt (by decide)).2.2.1 "p1" "u1" testBlog (by decide) (by decide)
      (CacheKeys.blog "p1") (Or.inl rfl),
    hu.1 (CacheKeys.blogSlug "s1") (Or.inr (Or.inl rfl)),
    hu.2⟩

/-- C4 (confirmed): after a successful soft delete of a present,
non-deleted post — in a store with unique row ids and slugs — every
subsequent read by identifier or by the post's slug fails with `NotFound`,
at any later instant: the soft delete itself removed both cache keys, so
no stale pre-delete snapshot can be served, and the store row is now
marked deleted. -/
theorem C4_soft_delete_visibility (s : St) (id : String) (blog : Blog) (d1 d2 : Nat)
    (hup : s.cacheUp = true)
    (hid : s.db.Pairwise (fun a b => a.id ≠ b.id))
    (hslug : s.db.Pairwise (fun a b => a.slug ≠ b.slug))
    (hdb : s.db.find? (fun x => x.id == id) = some blog)
    (hnd : blog.isDeleted = false) :
    (getBlogByIdFromDB id (tick d1 (softDeleteIntoDb id s).2)).1 = Except.error Err.notFound
    ∧ (getBlogBySlug blog.slug (tick d2 (softDeleteIntoDb id s).2)).1
        = Except.error Err.notFound := by
  have hbid : blog.id = id := by
    have h := List.find?_some hdb
    exact eq_of_beq h
  rw [softDeleteIntoDb_success_eq s id blog hdb hnd]
  dsimp only
  set A := invalidateBlogCache id (some blog.slug)
      { s with
          db := dbUpdateFirst id (fun x => { x with isDeleted := true }) s.db
          dbReads := s.dbReads + 1 } with hA
  have hframe := invalidateBlogCache_frame id (some blog.slug)
      { s with
          db := dbUpdateFirst id (fun x => { x with isDeleted := true }) s.db
          dbReads := s.dbReads + 1 }
  rw [← hA] at hframe
  have hAup : A.cacheUp = true := by rw [hframe.2.2.1]; exact hup
  have hAdb : A.db = dbUpdateFirst id (fun x => { x with isDeleted := true }) s.db :=
    hframe.1
  have habsId : cacheFindE A.now (CacheKeys.blog id) A.cache = none := by
    rw [hA]
    apply invalidateBlogCache_absent
    · exact hup
    · exact Or.inl rfl
  have habsSlug : cacheFindE A.now (CacheKeys.blogSlug blog.slug) A.cache = none := by
    rw [hA]
    apply invalidateBlogCache_absent
    · exact hup
    · exact Or.inr (Or.inr (Or.inl ⟨blog.slug, rfl, rfl⟩))
  constructor
  · apply getBlog_byId_notFound
    · rw [tick_cacheUp]; exact hAup
    · rw [tick_now, tick_cache]
      exact cacheFindE_none_mono A.now d1 _ _ habsId
    · intro b' hb'
      rw [tick_db, hAdb,
        find?_id_dbUpdateFirst id (fun x => { x with isDeleted := true }) s.db
          (fun x => rfl), hdb] at hb'
      injection hb' with hb'
      rw [← hb']
  · apply getBlog_bySlug_notFound
    · rw [tick_cacheUp]; exact hAup
    · rw [tick_now, tick_cache]
      exact cacheFindE_none_mono A.now d2 _ _ habsSlug
    · intro b' hb'
      rw [tick_db, hAdb, ← hbid] at hb'
      rw [find?_slug_dbUpdateFirst s.db blog (fun x => { x with isDeleted := true }) rfl
        hid hslug (by rw [hbid]; exact hdb)] at hb'
      injection hb' with hb'
      rw [← hb']

/-- C4 (witness): the soft-delete visibility statement at a concrete
state, read 50 and 70 seconds after the delete. -/
theorem C4_witness :
    (getBlogByIdFromDB "p1" (tick 50 (softDeleteIntoDb "p1" testSt).2)).1
        = Except.error Err.notFound
    ∧ (getBlogBySlug testBlog.slug (tick 70 (softDeleteIntoDb "p1" testSt).2)).1
        = Except.error Err.notFound :=
  C4_soft_delete_visibility testSt "p1" testBlog 50 70 (by decide) (by decide) (by decide)
    (by decide) (by decide)

/-- C5 (confirmed): for a (post, user) pair with no like marker, calling
`likeBlog` twice in sequence yields success then `AlreadyLiked`, and the
persisted like count grows by exactly 1 across the two calls. -/
theorem C5_like_idempotent (s : St) (blogId userId : String) (b : Blog)
    (hup : s.cacheUp = true)
    (hmark : cacheFindE s.now (CacheKeys.userLike userId blogId) s.cache = none)
    (hdb : s.db.find? (fun x => x.id == blogId) = some b) :
    (likeBlog blogId userId s).1 = Except.ok "Blog liked successfully"
    ∧ (likeBlog blogId userId (likeBlog blogId userId s).2).1
        = Except.error Err.alreadyLiked
    ∧ (likeBlog blogId userId (likeBlog blogId userId s).2).2.db.find?
        (fun x => x.id == blogId) = some { b with likes := b.likes + 1 } := by
  rw [likeBlog_success_eq s blogId userId b hup hmark hdb]
  dsimp only
  set A := invalidateBlogCache blogId none
      { redisIncrSwallow (CacheKeys.likes blogId)
          (safeRedisSet (CacheKeys.userLike userId blogId) CacheTTL.userLike
            (CVal.vStr "1") s) with
          db := dbUpdateFirst blogId (fun x => { x with likes := x.likes + 1 }) s.db } with hA
  have hframe := invalidateBlogCache_frame blogId none
      { redisIncrSwallow (CacheKeys.likes blogId)
          (safeRedisSet (CacheKeys.userLike userId blogId) CacheTTL.userLike
            (CVal.vStr "1") s) with
          db := dbUpdateFirst blogId (fun x => { x with likes := x.likes + 1 }) s.db }
  rw [← hA] at hframe
  have hAup : A.cacheUp = true := by
    rw [hframe.2.2.1]
    dsimp only
    rw [(redisIncrSwallow_frame _ _).2.2.1, (safeRedisSet_frame _ _ _ _).2.2.1]
    exact hup
  have hAdb : A.db = dbUpdateFirst blogId (fun x => { x with likes := x.likes + 1 }) s.db :=
    hframe.1
  have hmark2 : cacheFindE A.now (CacheKeys.userLike userId blogId) A.cache
      = some (CVal.vStr "1", some (s.now + CacheTTL.userLike)) := by
    rw [hA]
    rw [invalidateBlogCache_preserve _ _ _ _
      (key_userLike_ne_blog userId blogId)
      (key_userLike_ne_trending userId blogId)
      (fun x hx => by cases hx)
      (not_sw_all_userLike userId blogId)
      (not_sw_user_userLike userId blogId)]
    dsimp only
    rw [(redisIncrSwallow_frame _ _).2.1]
    rw [redisIncrSwallow_cacheFindE _ _ _ (key_userLike_ne_likes userId blogId)]
    rw [safeRedisSet_eq, if_pos hup]
    dsimp only
    rw [cacheFindE_cacheInsert_self]
    rw [if_pos (by unfold entryLive; simp [CacheTTL.userLike])]
  refine ⟨rfl, ?_, ?_⟩
  · unfold likeBlog
    dsimp only
    rw [safeRedisGet_eq_up _ _ hAup, hmark2]
    rfl
  · unfold likeBlog
    dsimp only
    rw [safeRedisGet_eq_up _ _ hAup, hmark2]
    dsimp only [Option.map_some']
    rw [hAdb, find?_id_dbUpdateFirst blogId (fun x => { x with likes := x.likes + 1 }) s.db
      (fun x => rfl), hdb]
    rfl

/-- C5 (witness): the like-twice statement at a concrete state. -/
theorem C5_witness :
    (likeBlog "p1" "u1" testSt).1 = Except.ok "Blog liked successfully"
    ∧ (likeBlog "p1" "u1" (likeBlog "p1" "u1" testSt).2).1 = Except.error Err.alreadyLiked
    ∧ (likeBlog "p1" "u1" (likeBlog "p1" "u1" testSt).2).2.db.find?
        (fun x => x.id == "p1") = some { testBlog with likes := testBlog.likes + 1 } :=
  C5_like_idempotent testSt "p1" "u1" testBlog (by decide) (by decide) (by decide)

/-- C6 (counterexample): the "never below zero" part fails.  With a like
marker present but a persisted like count of 0, `unlikeBlog` succeeds and
drives the persisted count to -1. -/
theorem C6_counterexample :
    (unlikeBlog "p1" "u1" testStLikedZero).1 = Except.ok "Blog unliked successfully"
    ∧ (unlikeBlog "p1" "u1" testStLikedZero).2.db.find? (fun x => x.id == "p1")
        = some { testBlog with likes := -1 }
    ∧ ((-1 : Int) < 0) := by decide

/-- C6 (amended): `unlikeBlog` fails with `NotLiked` and leaves the state
completely unchanged when no like marker exists; when a marker exists it
deletes the marker, decrements the persisted like count by exactly one —
with no lower bound, so the count can go below zero — and invalidates the
post's primary snapshot. -/
theorem C6_unlike (s : St) (blogId userId : String) (b : Blog)
    (hup : s.cacheUp = true)
    (hdb : s.db.find? (fun x => x.id == blogId) = some b) :
    (cacheFindE s.now (CacheKeys.userLike userId blogId) s.cache = none →
      unlikeBlog blogId userId s = (Except.error Err.notLiked, s))
    ∧ (∀ p, cacheFindE s.now (CacheKeys.userLike userId blogId) s.cache = some p →
        (unlikeBlog blogId userId s).1 = Except.ok "Blog unliked successfully"
        ∧ (unlikeBlog blogId userId s).2.db.find? (fun x => x.id == blogId)
            = some { b with likes := b.likes - 1 }
        ∧ cacheFindE (unlikeBlog blogId userId s).2.now (CacheKeys.userLike userId blogId)
            (unlikeBlog blogId userId s).2.cache = none
        ∧ cacheFindE (unlikeBlog blogId userId s).2.now (CacheKeys.blog blogId)
            (unlikeBlog blogId userId s).2.cache = none) := by
  constructor
  · intro hmark
    unfold unlikeBlog
    dsimp only
    rw [safeRedisGet_eq_up _ _ hup, hmark]
    dsimp only [Option.map_none']
  · intro p hmark
    rw [unlikeBlog_success_eq s blogId userId b p hup hmark hdb]
    dsimp only
    have hXup : (redisDecrSwallow (CacheKeys.likes blogId)
        (safeRedisDel [CacheKeys.userLike userId blogId] s)).cacheUp = true := by
      rw [(redisDecrSwallow_frame _ _).2.2.1, (safeRedisDel_frame _ _).2.2.1]
      exact hup
    refine ⟨rfl, ?_, ?_, ?_⟩
    · rw [(invalidateBlogCache_frame _ _ _).1]
      dsimp only
      rw [find?_id_dbUpdateFirst blogId (fun x => { x with likes := x.likes - 1 }) s.db
        (fun x => rfl), hdb]
      rfl
    · rw [invalidateBlogCache_preserve _ _ _ _
        (key_userLike_ne_blog userId blogId)
        (key_userLike_ne_trending userId blogId)
        (fun x hx => by cases hx)
        (not_sw_all_userLike userId blogId)
        (not_sw_user_userLike userId blogId)]
      dsimp only
      rw [(redisDecrSwallow_frame _ _).2.1]
      rw [redisDecrSwallow_cacheFindE _ _ _ (key_userLike_ne_likes userId blogId)]
      rw [safeRedisDel_eq, if_pos hup]
      dsimp only
      exact cacheFindE_cacheEraseAll_mem _ _ _ _ (List.mem_singleton.mpr rfl)
    · apply invalidateBlogCache_absent
      · dsimp only
        exact hXup
      · exact Or.inl rfl

/-- C6 (witness): the amended statement at a concrete state in which user
u1 has liked post p1. -/
theorem C6_witness :
    (unlikeBlog "p1" "u1" testStLikedZero).1 = Except.ok "Blog unliked successfully"
    ∧ (unlikeBlog "p1" "u1" testStLikedZero).2.db.find? (fun x => x.id == "p1")
        = some { testBlog with likes := testBlog.likes - 1 } :=
  let h := (C6_unlike testStLikedZero "p1" "u1" testBlog (by decide) (by decide)).2
    (CVal.vStr "1", some 1000) (by decide)
  ⟨h.1, h.2.1⟩

/-- C7 (counterexample): the cache key is not a function of the
deduplicated tag set.  `["a","a"]` and `["a"]` are equal as sets, yet
`searchByTags` computes different cache keys for them (duplicates are kept
by `tags.sort()`). -/
theorem C7_counterexample :
    (["a", "a"] : List String).toFinset = (["a"] : List String).toFinset
    ∧ searchTagsCacheKey ["a", "a"] ≠ searchTagsCacheKey ["a"] := by decide

/-- C7 (amended): the tag-search cache key is a function of the sorted
input tag list, so any two inputs that are permutations of each other
(equal as multisets) produce the same key, and `searchByTags` behaves
identically on them — same result and same state; duplicates are not
removed, so set-equal inputs with different multiplicities can map to
different keys. -/
theorem C7_amended (tags1 tags2 : List String) (h : tags1.Perm tags2) (s : St) :
    searchTagsCacheKey tags1 = searchTagsCacheKey tags2
    ∧ searchByTags tags1 s = searchByTags tags2 s := by
  have hs := jsSort_eq_of_perm h
  unfold searchTagsCacheKey searchByTags
  rw [hs]
  exact ⟨rfl, rfl⟩

/-- C7 (witness): the amended statement at the spec's example inputs. -/
theorem C7_witness :
    searchTagsCacheKey ["ts", "cache"] = searchTagsCacheKey ["cache", "ts"]
    ∧ searchByTags ["ts", "cache"] testSt = searchByTags ["cache", "ts"] testSt :=
  C7_amended ["ts", "cache"] ["cache", "ts"] (by decide) testSt

/-- C8 (confirmed): with the cache unreachable (every Redis call raises),
`getBlogByIdFromDB`, `createIntoDb` and `likeBlog` still succeed using the
durable store alone: cache read failures fall through to the store and
cache write/counter/invalidation failures are swallowed. -/
theorem C8_cache_degraded (s : St) (hdown : s.cacheUp = false) :
    (∀ id b, s.db.find? (fun x => x.id == id) = some b → b.isDeleted = false →
        (getBlogByIdFromDB id s).1 = Except.ok b)
    ∧ (∀ uid body newId, s.db.find? (fun x => x.slug == body.slug) = none →
        ∃ blog, (createIntoDb (some uid) body newId s).1 = Except.ok blog)
    ∧ (∀ blogId userId b, s.db.find? (fun x => x.id == blogId) = some b →
        (likeBlog blogId userId s).1 = Except.ok "Blog liked successfully") := by
  refine ⟨?_, ?_, ?_⟩
  · intro id b hdb hnd
    unfold getBlogByIdFromDB getBlog
    dsimp only
    rw [safeRedisGet_eq_down _ _ hdown]
    dsimp only
    unfold dbFindById
    dsimp only
    rw [hdb]
    dsimp only
    rw [if_neg (by rw [hnd]; exact Bool.false_ne_true)]
  · intro uid body newId hslug
    unfold createIntoDb dbFindBySlug
    dsimp only
    rw [hslug]
    exact ⟨_, rfl⟩
  · intro blogId userId b hdb
    unfold likeBlog
    dsimp only
    rw [safeRedisGet_eq_down _ _ hdown]
    dsimp only
    have hXdb : (redisIncrSwallow (CacheKeys.likes blogId)
        (safeRedisSet (CacheKeys.userLike userId blogId) CacheTTL.userLike
          (CVal.vStr "1") s)).db = s.db := by
      rw [(redisIncrSwallow_frame _ _).1, (safeRedisSet_frame _ _ _ _).1]
    unfold dbUpdateE
    rw [hXdb, hdb]

/-- C8 (witness): the cache-degraded statement at a concrete state whose
cache is down. -/
theorem C8_witness :
    (getBlogByIdFromDB "p1" testStDown).1 = Except.ok testBlog
    ∧ (likeBlog "p1" "u1" testStDown).1 = Except.ok "Blog liked successfully" :=
  ⟨(C8_cache_degraded testStDown rfl).1 "p1" testBlog (by decide) (by decide),
   (C8_cache_degraded testStDown rfl).2.2 "p1" "u1" testBlog (by decide)⟩

/-- C9 (counterexample): two concurrent `likeBlog` calls for the same
(post, user) pair can BOTH succeed.  Under the interleaving where both
marker checks run before either marker write (the marker is written with a
plain `SETEX` after a separate `GET`, not with an atomic set-if-absent),
both calls return success and the persisted like count grows by 2. -/
theorem C9_counterexample :
    ((runLikePair "p1" "u1" raceSchedule (likeThreadInit, likeThreadInit, testSt)).1.outcome
        = LikeOutcome.ok)
    ∧ ((runLikePair "p1" "u1" raceSchedule (likeThreadInit, likeThreadInit, testSt)).2.1.outcome
        = LikeOutcome.ok)
    ∧ ((runLikePair "p1" "u1" raceSchedule (likeThreadInit, likeThreadInit, testSt)).2.2.db.find?
        (fun x => x.id == "p1") = some { testBlog with likes := 2 }) := by decide

/-- C9 (amended): the like path is serialized only by the marker check.
When the two calls run serially, exactly one succeeds, the other gets
`AlreadyLiked`, and the persisted count grows by 1; but the marker is set
with a read-then-write (`GET` then `SETEX`), not an atomic set-if-absent,
so the interleaving in which both marker checks precede both marker writes
yields two successes and a persisted increase of 2. -/
theorem C9_amended :
    (((runLikePair "p1" "u1" serialSchedule (likeThreadInit, likeThreadInit, testSt)).1.outcome
        = LikeOutcome.ok)
      ∧ ((runLikePair "p1" "u1" serialSchedule
            (likeThreadInit, likeThreadInit, testSt)).2.1.outcome = LikeOutcome.already)
      ∧ ((runLikePair "p1" "u1" serialSchedule
            (likeThreadInit, likeThreadInit, testSt)).2.2.db.find?
          (fun x => x.id == "p1") = some { testBlog with likes := 1 }))
    ∧ (((runLikePair "p1" "u1" raceSchedule
            (likeThreadInit, likeThreadInit, testSt)).1.outcome = LikeOutcome.ok)
      ∧ ((runLikePair "p1" "u1" raceSchedule
            (likeThreadInit, likeThreadInit, testSt)).2.1.outcome = LikeOutcome.ok)
      ∧ ((runLikePair "p1" "u1" raceSchedule
            (likeThreadInit, likeThreadInit, testSt)).2.2.db.find?
          (fun x => x.id == "p1") = some { testBlog with likes := 2 })) := by decide

/-- C10 (confirmed): `searchByTags` mutates its input array.
`tags.sort()` sorts the caller's array in place, so after the call the
array holds a sorted permutation of its previous contents; on `["b","a"]`
the contents actually change, so any caller sharing the array observes
the reordering. -/
theorem C10_search_mutates_input :
    (∀ tags : List String, (searchByTagsArgAfter tags).Perm tags
      ∧ List.Sorted jsR (searchByTagsArgAfter tags))
    ∧ searchByTagsArgAfter ["b", "a"] = ["a", "b"]
    ∧ searchByTagsArgAfter ["b", "a"] ≠ ["b", "a"] := by
  refine ⟨fun tags => ⟨perm_jsSort tags, sorted_jsSort tags⟩, by decide, by decide⟩
